import Mathlib

/-!
# Verification of the HK logistics ETA delivery engine

Shallow embedding of the concrete-truck delivery simulation engine
(`src/services/truckService.ts`, current revision: the one defining
`MIXER_MAX_SPEED = 70`, `AUTO_DISPATCH_ENABLED = false`, `hourWindow`,
`addTruckFromTrip`, `completeTruckFromDb`, `hydrateFromTrips`) and of the
corridor path stitcher (`stitchPath`).

Modelling conventions:
* JavaScript numbers are modelled as `ℚ` (all arithmetic the claims touch is
  exact decimal/rational arithmetic); timestamps (`Date`) are `ℚ` milliseconds.
* The global mutable module state becomes an explicit `DeliveryState` value
  threaded through the operations.
* JavaScript `Map`s (insertion-ordered, unique keys) become association
  lists with `alGet` / `alSet` / `alDelete` mirroring `get` / `set` / `delete`.
* The geometry utilities `calculateRouteDistance` / `interpolatePosition`
  live in `etaService.ts`, which is not part of the analysed sources; the
  claims do not depend on their values, so they are kept as parameters of an
  `Env` record (modelled from the spec's Geometry/Distance Utility contract),
  together with the external corridor store, the TDAS traffic cache and the
  `PROJECT_PATHS` constant table.
-/

namespace TruckService

/-- Insertion-ordered association-list lookup, mirroring JS `Map.get`. -/
def alGet {α : Type} : List (String × α) → String → Option α
  | [], _ => none
  | (k', v') :: rest, k => if k' = k then some v' else alGet rest k

/-- Insertion-ordered association-list update, mirroring JS `Map.set`:
an existing key keeps its position, a new key is appended at the end. -/
def alSet {α : Type} : List (String × α) → String → α → List (String × α)
  | [], k, v => [(k, v)]
  | (k', v') :: rest, k, v =>
      if k' = k then (k, v) :: rest else (k', v') :: alSet rest k v

/-- Association-list removal, mirroring JS `Map.delete`. -/
def alDelete {α : Type} : List (String × α) → String → List (String × α)
  | [], _ => []
  | (k', v') :: rest, k => if k' = k then rest else (k', v') :: alDelete rest k

/-- Key presence test, mirroring JS `Map.has`. -/
def alHas {α : Type} (l : List (String × α)) (k : String) : Bool :=
  (alGet l k).isSome

/-- The list of keys of an association list, in map order. -/
def keys {α : Type} (l : List (String × α)) : List String :=
  l.map Prod.fst

theorem alGet_eq_none_of_not_mem_keys {α : Type} {l : List (String × α)} {k : String}
    (h : k ∉ keys l) : alGet l k = none := by
  induction l with
  | nil => rfl
  | cons p rest ih =>
      simp only [keys, List.map_cons, List.mem_cons, not_or] at h
      simp only [alGet]
      rw [if_neg (fun hk => h.1 hk.symm)]
      exact ih (by simpa [keys] using h.2)

theorem mem_keys_of_alGet_eq_some {α : Type} {l : List (String × α)} {k : String} {v : α}
    (h : alGet l k = some v) : k ∈ keys l := by
  by_contra hk
  rw [alGet_eq_none_of_not_mem_keys hk] at h
  exact Option.noConfusion h

theorem mem_of_alGet_eq_some {α : Type} {l : List (String × α)} {k : String} {v : α}
    (h : alGet l k = some v) : (k, v) ∈ l := by
  induction l with
  | nil => exact Option.noConfusion h
  | cons p rest ih =>
      obtain ⟨k', v'⟩ := p
      by_cases hk : k' = k
      · subst hk
        simp only [alGet, eq_self_iff_true, if_true, Option.some.injEq] at h
        rw [← h]
        exact List.mem_cons_self _ _
      · simp only [alGet, if_neg hk] at h
        exact List.mem_cons_of_mem _ (ih h)

theorem alGet_alSet_self {α : Type} (l : List (String × α)) (k : String) (v : α) :
    alGet (alSet l k v) k = some v := by
  induction l with
  | nil => simp [alSet, alGet]
  | cons p rest ih =>
      obtain ⟨k', v'⟩ := p
      by_cases hk : k' = k
      · simp [alSet, hk, alGet]
      · simp [alSet, hk, alGet, ih]

theorem alGet_alSet_ne {α : Type} (l : List (String × α)) (k k' : String) (v : α)
    (h : k ≠ k') : alGet (alSet l k v) k' = alGet l k' := by
  induction l with
  | nil => simp [alSet, alGet, h]
  | cons p rest ih =>
      obtain ⟨k₀, v₀⟩ := p
      by_cases hk : k₀ = k
      · subst hk
        simp [alSet, alGet, h]
      · simp only [alSet, if_neg hk, alGet]
        by_cases hk' : k₀ = k'
        · simp [hk']
        · simp [hk', ih]

theorem keys_alSet_of_mem {α : Type} (l : List (String × α)) (k : String) (v : α)
    (h : k ∈ keys l) : keys (alSet l k v) = keys l := by
  induction l with
  | nil => cases h
  | cons p rest ih =>
      obtain ⟨k₀, v₀⟩ := p
      by_cases hk : k₀ = k
      · simp [alSet, hk, keys]
      · simp only [keys, List.map_cons, List.mem_cons] at h
        rcases h with h | h
        · exact absurd h.symm hk
        · have := ih (by simpa [keys] using h)
          simp only [keys] at this
          simp [alSet, hk, keys, this]

theorem keys_alSet_of_not_mem {α : Type} (l : List (String × α)) (k : String) (v : α)
    (h : k ∉ keys l) : keys (alSet l k v) = keys l ++ [k] := by
  induction l with
  | nil => simp [alSet, keys]
  | cons p rest ih =>
      obtain ⟨k₀, v₀⟩ := p
      simp only [keys, List.map_cons, List.mem_cons, not_or] at h
      simp only [alSet]
      rw [if_neg (fun hk => h.1 hk.symm)]
      have := ih (by simpa [keys] using h.2)
      simp only [keys] at this
      simp [keys, this]

theorem mem_alSet {α : Type} {l : List (String × α)} {k : String} {v : α} {p : String × α}
    (hp : p ∈ alSet l k v) : p = (k, v) ∨ p ∈ l := by
  induction l with
  | nil => simpa [alSet] using hp
  | cons q rest ih =>
      obtain ⟨k₀, v₀⟩ := q
      by_cases hk : k₀ = k
      · simp only [alSet, if_pos hk, List.mem_cons] at hp
        rcases hp with hp | hp
        · exact Or.inl hp
        · exact Or.inr (List.mem_cons_of_mem _ hp)
      · simp only [alSet, if_neg hk, List.mem_cons] at hp
        rcases hp with hp | hp
        · exact Or.inr (by simp [hp])
        · rcases ih hp with h | h
          · exact Or.inl h
          · exact Or.inr (List.mem_cons_of_mem _ h)

theorem mem_of_mem_alDelete {α : Type} {l : List (String × α)} {k : String} {p : String × α}
    (hp : p ∈ alDelete l k) : p ∈ l := by
  induction l with
  | nil => simp [alDelete] at hp
  | cons q rest ih =>
      obtain ⟨k₀, v₀⟩ := q
      by_cases hk : k₀ = k
      · simp only [alDelete, if_pos hk] at hp
        exact List.mem_cons_of_mem _ hp
      · simp only [alDelete, if_neg hk, List.mem_cons] at hp
        rcases hp with hp | hp
        · exact by simp [hp]
        · exact List.mem_cons_of_mem _ (ih hp)

theorem alGet_isSome_of_mem_keys {α : Type} {l : List (String × α)} {k : String}
    (h : k ∈ keys l) : (alGet l k).isSome := by
  induction l with
  | nil => cases h
  | cons p rest ih =>
      obtain ⟨k₀, v₀⟩ := p
      by_cases hk : k₀ = k
      · simp [alGet, hk]
      · simp only [keys, List.map_cons, List.mem_cons] at h
        rcases h with h | h
        · exact absurd h.symm hk
        · simp only [alGet, if_neg hk]
          exact ih (by simpa [keys] using h)

theorem not_mem_keys_of_alGet_eq_none {α : Type} {l : List (String × α)} {k : String}
    (h : alGet l k = none) : k ∉ keys l := by
  intro hk
  have := alGet_isSome_of_mem_keys hk
  rw [h] at this
  exact Bool.noConfusion this

theorem alGet_of_mem_nodup {α : Type} {l : List (String × α)} {k : String} {v : α}
    (hnd : (keys l).Nodup) (h : (k, v) ∈ l) : alGet l k = some v := by
  induction l with
  | nil => cases h
  | cons p rest ih =>
      obtain ⟨k₀, v₀⟩ := p
      simp only [keys, List.map_cons, List.nodup_cons] at hnd
      rcases List.mem_cons.mp h with h | h
      · cases h
        simp [alGet]
      · by_cases hk : k₀ = k
        · exfalso
          apply hnd.1
          rw [hk]
          exact List.mem_map.mpr ⟨(k, v), h, rfl⟩
        · simp only [alGet, if_neg hk]
          exact ih hnd.2 h

theorem mem_alSet_self {α : Type} (l : List (String × α)) (k : String) (v : α) :
    (k, v) ∈ alSet l k v := by
  induction l with
  | nil => simp [alSet]
  | cons p rest ih =>
      obtain ⟨k₀, v₀⟩ := p
      by_cases hk : k₀ = k
      · simp [alSet, hk]
      · simp only [alSet, if_neg hk, List.mem_cons]
        exact Or.inr ih

theorem mem_alSet_of_mem_ne {α : Type} {l : List (String × α)} {k : String} {v : α}
    {q : String × α} (hq : q ∈ l) (hne : q.1 ≠ k) : q ∈ alSet l k v := by
  induction l with
  | nil => cases hq
  | cons p rest ih =>
      obtain ⟨k₀, v₀⟩ := p
      by_cases hk : k₀ = k
      · simp only [alSet, if_pos hk, List.mem_cons]
        rcases List.mem_cons.mp hq with h | h
        · exfalso
          apply hne
          rw [h, hk]
        · exact Or.inr h
      · simp only [alSet, if_neg hk, List.mem_cons]
        rcases List.mem_cons.mp hq with h | h
        · exact Or.inl h
        · exact Or.inr (ih h)

theorem nodup_keys_alSet {α : Type} {l : List (String × α)} (k : String) (v : α)
    (hnd : (keys l).Nodup) : (keys (alSet l k v)).Nodup := by
  by_cases hk : k ∈ keys l
  · rw [keys_alSet_of_mem l k v hk]
    exact hnd
  · rw [keys_alSet_of_not_mem l k v hk]
    simpa using List.Nodup.append hnd (List.nodup_singleton k)
      (by simpa [List.disjoint_singleton] using hk)

theorem mem_keys_of_mem_keys_alDelete {α : Type} {l : List (String × α)}
    {k k' : String} (h : k' ∈ keys (alDelete l k)) : k' ∈ keys l := by
  simp only [keys, List.mem_map] at h ⊢
  obtain ⟨p, hp, hpk⟩ := h
  exact ⟨p, mem_of_mem_alDelete hp, hpk⟩

theorem nodup_keys_alDelete {α : Type} {l : List (String × α)} (k : String)
    (hnd : (keys l).Nodup) : (keys (alDelete l k)).Nodup := by
  induction l with
  | nil => simp [alDelete, keys]
  | cons p rest ih =>
      obtain ⟨k₀, v₀⟩ := p
      simp only [keys, List.map_cons, List.nodup_cons] at hnd
      by_cases hk : k₀ = k
      · simp only [alDelete, if_pos hk]
        exact hnd.2
      · simp only [alDelete, if_neg hk, keys, List.map_cons, List.nodup_cons]
        refine ⟨fun hmem => hnd.1 (mem_keys_of_mem_keys_alDelete hmem), ih hnd.2⟩

theorem not_mem_keys_alDelete_self {α : Type} {l : List (String × α)} {k : String}
    (hnd : (keys l).Nodup) : k ∉ keys (alDelete l k) := by
  induction l with
  | nil => simp [alDelete, keys]
  | cons p rest ih =>
      obtain ⟨k₀, v₀⟩ := p
      simp only [keys, List.map_cons, List.nodup_cons] at hnd
      by_cases hk : k₀ = k
      · simp only [alDelete, if_pos hk]
        rw [← hk]
        exact hnd.1
      · simp only [alDelete, if_neg hk, keys, List.map_cons, List.mem_cons, not_or]
        exact ⟨fun h => hk h.symm, ih hnd.2⟩

theorem mem_alDelete_of_mem_ne {α : Type} {l : List (String × α)} {k : String}
    {q : String × α} (hq : q ∈ l) (hne : q.1 ≠ k) : q ∈ alDelete l k := by
  induction l with
  | nil => cases hq
  | cons p rest ih =>
      obtain ⟨k₀, v₀⟩ := p
      by_cases hk : k₀ = k
      · simp only [alDelete, if_pos hk]
        rcases List.mem_cons.mp hq with h | h
        · exfalso
          apply hne
          rw [h, hk]
        · exact h
      · simp only [alDelete, if_neg hk, List.mem_cons]
        rcases List.mem_cons.mp hq with h | h
        · exact Or.inl h
        · exact Or.inr (ih h)

theorem alGet_alDelete_ne {α : Type} (l : List (String × α)) (k k' : String)
    (h : k ≠ k') : alGet (alDelete l k) k' = alGet l k' := by
  induction l with
  | nil => simp [alDelete]
  | cons p rest ih =>
      obtain ⟨k₀, v₀⟩ := p
      by_cases hk : k₀ = k
      · simp only [alDelete, if_pos hk, alGet]
        rw [if_neg (by rw [hk]; exact h)]
      · simp only [alDelete, if_neg hk, alGet]
        by_cases hk' : k₀ = k'
        · simp [hk']
        · simp [hk', ih]

theorem string_append_left_cancel {a b c : String} (h : a ++ b = a ++ c) : b = c := by
  have hd : (a ++ b).data = (a ++ c).data := congrArg String.data h
  simp only [String.data_append] at hd
  exact String.ext (List.append_cancel_left hd)

/-- The three named project paths (`PathId` in `constants/projectRoutes`). -/
inductive PathId
  | GAMMON_TM
  | HKC_TY
  | FUTURE_PATH
deriving DecidableEq

/-- Truck status union `'en-route' | 'arrived' | 'waiting'`. -/
inductive TruckStatus
  | enRoute
  | arrived
  | waiting
deriving DecidableEq

/-- Traffic state union `'GREEN' | 'YELLOW' | 'RED'` from `tdas.ts`. -/
inductive TrafficState
  | GREEN
  | YELLOW
  | RED
deriving DecidableEq

/-- A TDAS traffic-cache entry (`Corridor` in `tdas.ts`): corridor id,
state, speed in km/h and last-updated timestamp (ms). -/
structure TdasCorridor where
  id : ℕ
  state : TrafficState
  speed : ℚ
  lastUpdated : ℚ
deriving DecidableEq

/-- GeoJSON geometry of a corridor feature: `LineString` or
`MultiLineString` coordinates (each coordinate a `[lng, lat]` pair). -/
inductive GeoGeometry
  | lineString (coordinates : List (ℚ × ℚ))
  | multiLineString (coordinates : List (List (ℚ × ℚ)))
deriving DecidableEq

/-- A corridor feature as served by `corridorService.getAllCorridors()`;
only the geometry is read by the code under verification. -/
structure CorridorFeature where
  geometry : Option GeoGeometry
deriving DecidableEq

/-- External collaborators of the delivery engine.

`corridors` is the TDAS traffic cache (`corridors` record in `tdas.ts`),
`allCorridors` the corridor store (`corridorService.getAllCorridors`), and
`projectPaths` the `PROJECT_PATHS` table from `constants/projectRoutes`
(not among the analysed sources, hence kept abstract).

Modelled from the spec: the Geometry/Distance Utility
(`etaService.calculateRouteDistance` / `etaService.interpolatePosition`)
is not among the analysed sources; the spec describes it as Haversine
distance over a coordinate sequence and corridor-position interpolation at
a progress ratio. No claim depends on its values, so it is kept as the
abstract fields `calcDist` (distance of a raw coordinate array, km),
`calcDistGeom` (distance of a geometry object) and `interp`. -/
structure Env where
  corridors : ℕ → Option TdasCorridor
  allCorridors : ℕ → Option CorridorFeature
  projectPaths : PathId → List ℕ
  calcDist : List (ℚ × ℚ) → ℚ
  calcDistGeom : GeoGeometry → ℚ
  interp : List (ℚ × ℚ) → ℚ → Option (ℚ × ℚ)

/-- `MIXER_MAX_SPEED = 70` km/h — loaded concrete truck cap. -/
def MIXER_MAX_SPEED : ℚ := 70

/-- The per-corridor speed used by `getPathAverageSpeed`: the TDAS live
value when present and positive, else the default, capped at
`MIXER_MAX_SPEED` in both cases. -/
def corridorSpeed (env : Env) (routeId : ℕ) (defaultSpeed : ℚ) : ℚ :=
  match env.corridors routeId with
  | some tdasData =>
      if tdasData.speed > 0 then min tdasData.speed MIXER_MAX_SPEED
      else min defaultSpeed MIXER_MAX_SPEED
  | none => min defaultSpeed MIXER_MAX_SPEED

/-- Loop body of `getPathAverageSpeed`: accumulate
`(totalWeightedSpeed, totalDistance)` over one corridor, skipping
corridors that are absent, have no geometry, or have non-positive length. -/
def speedFoldStep (env : Env) (defaultSpeed : ℚ) (acc : ℚ × ℚ) (routeId : ℕ) : ℚ × ℚ :=
  match env.allCorridors routeId with
  | none => acc
  | some corridor =>
    match corridor.geometry with
    | none => acc
    | some geom =>
      let segD := env.calcDistGeom geom
      if segD ≤ 0 then acc
      else (acc.1 + corridorSpeed env routeId defaultSpeed * segD, acc.2 + segD)

/-- `getPathAverageSpeed(pathId, defaultSpeed)`: length-weighted mean of
per-corridor speeds along the path, each corridor's speed being the TDAS
value when present and positive, else the default, in both cases capped at
`MIXER_MAX_SPEED`; zero-length corridors are skipped and the no-usable-
distance fallback is the capped default. -/
def getPathAverageSpeed (env : Env) (pathId : PathId) (defaultSpeed : ℚ) : ℚ :=
  let routeIds := env.projectPaths pathId
  let acc := routeIds.foldl (speedFoldStep env defaultSpeed) ((0 : ℚ), (0 : ℚ))
  if acc.2 ≤ 0 then min defaultSpeed MIXER_MAX_SPEED
  else acc.1 / acc.2

theorem corridorSpeed_le (env : Env) (routeId : ℕ) (defaultSpeed : ℚ) :
    corridorSpeed env routeId defaultSpeed ≤ MIXER_MAX_SPEED := by
  unfold corridorSpeed
  cases env.corridors routeId with
  | none => exact min_le_right _ _
  | some tdasData =>
      by_cases hs : tdasData.speed > 0
      · simp only [hs, if_pos]
        exact min_le_right _ _
      · simp only [hs, if_false]
        exact min_le_right _ _

theorem speedFoldStep_cases (env : Env) (d : ℚ) (acc : ℚ × ℚ) (r : ℕ) :
    speedFoldStep env d acc r = acc ∨
    ∃ dd : ℚ, 0 < dd ∧
      speedFoldStep env d acc r = (acc.1 + corridorSpeed env r d * dd, acc.2 + dd) := by
  unfold speedFoldStep
  rcases henv : env.allCorridors r with _ | corridor
  · exact Or.inl rfl
  · rcases hgeom : corridor.geometry with _ | geom
    · left
      simp [hgeom]
    · simp only [hgeom]
      by_cases hd : env.calcDistGeom geom ≤ 0
      · exact Or.inl (by simp [hd])
      · exact Or.inr ⟨env.calcDistGeom geom, lt_of_not_le hd, by simp [hd]⟩

theorem speedFold_bound (env : Env) (defaultSpeed : ℚ) (l : List ℕ) (a : ℚ × ℚ)
    (ha : a.1 ≤ MIXER_MAX_SPEED * a.2 ∧ 0 ≤ a.2) :
    (l.foldl (speedFoldStep env defaultSpeed) a).1 ≤
      MIXER_MAX_SPEED * (l.foldl (speedFoldStep env defaultSpeed) a).2 ∧
    0 ≤ (l.foldl (speedFoldStep env defaultSpeed) a).2 := by
  induction l generalizing a with
  | nil => exact ha
  | cons r rest ih =>
      simp only [List.foldl_cons]
      apply ih
      rcases ha with ⟨h1, h2⟩
      rcases speedFoldStep_cases env defaultSpeed a r with h | ⟨dd, hdd, h⟩
      · rw [h]
        exact ⟨h1, h2⟩
      · rw [h]
        refine ⟨?_, add_nonneg h2 hdd.le⟩
        calc a.1 + corridorSpeed env r defaultSpeed * dd
            ≤ MIXER_MAX_SPEED * a.2 + MIXER_MAX_SPEED * dd :=
              add_le_add h1
                (mul_le_mul_of_nonneg_right (corridorSpeed_le env r defaultSpeed) hdd.le)
          _ = MIXER_MAX_SPEED * (a.2 + dd) := by ring

/-- **C10.** For every pathId and every defaultSpeed, and for any contents of
the traffic cache and corridor store, `getPathAverageSpeed` returns a value
that never exceeds `MIXER_MAX_SPEED` (70 km/h): each constituent corridor's
speed (live or default) is capped before length-weighted averaging, and the
no-usable-distance fallback is the capped default, so dispatch and tick never
use a speed above the mixer cap. -/
theorem c10_getPathAverageSpeed_le_mixer_max (env : Env) (pathId : PathId)
    (defaultSpeed : ℚ) :
    getPathAverageSpeed env pathId defaultSpeed ≤ MIXER_MAX_SPEED := by
  have hb := speedFold_bound env defaultSpeed (env.projectPaths pathId)
    ((0 : ℚ), (0 : ℚ)) (by norm_num)
  unfold getPathAverageSpeed
  by_cases h2 :
      ((env.projectPaths pathId).foldl (speedFoldStep env defaultSpeed)
        ((0 : ℚ), (0 : ℚ))).2 ≤ 0
  · simp only [h2, if_true]
    exact min_le_right _ _
  · simp only [h2, if_false]
    push_neg at h2
    exact (div_le_iff₀ h2).mpr (by linarith [hb.1])

/-! ## Corridor path stitcher (`stitchPath`) -/

/-- `segDist(a, b)`: squared Euclidean distance on raw lng/lat. -/
def stitchSegDist (a b : ℚ × ℚ) : ℚ :=
  (a.1 - b.1) * (a.1 - b.1) + (a.2 - b.2) * (a.2 - b.2)

/-- Gammon Tuen Mun plant `[lng, lat]`, the default stitch start anchor. -/
def GAMMON_START : ℚ × ℚ := (113.99065, 22.41476)

/-- The `< 1e-10` squared-distance threshold under which a junction
coordinate counts as a duplicate of the path's trailing coordinate. -/
def stitchEps : ℚ := 1 / 10000000000

/-- Inner selection loop of `stitchPath`: among unused segments, pick the one
whose first or last coordinate is nearest the cursor, scanning indices in
order, checking the first endpoint before the last, and replacing the best
candidate only on strictly smaller distance (initial best distance is
`Infinity`, so the first unused segment always becomes the candidate).
Returns the chosen index and whether the segment is taken reversed. -/
def bestLoop (used : List Bool) (cursor : ℚ × ℚ) :
    List (List (ℚ × ℚ)) → ℕ → Option (ℕ × Bool × ℚ) → Option (ℕ × Bool × ℚ)
  | [], _, best => best
  | seg :: rest, i, best =>
      let best' :=
        if used.getD i true then best
        else
          let first := seg.headD (0, 0)
          let last := seg.getLastD (0, 0)
          let dFirst := stitchSegDist cursor first
          let dLast := stitchSegDist cursor last
          let best1 :=
            match best with
            | none => some (i, false, dFirst)
            | some (bi, br, bd) =>
                if dFirst < bd then some (i, false, dFirst) else some (bi, br, bd)
          match best1 with
          | none => none
          | some (bi, br, bd) =>
              if dLast < bd then some (i, true, dLast) else some (bi, br, bd)
      bestLoop used cursor rest (i + 1) best'

def bestSegment (segments : List (List (ℚ × ℚ))) (used : List Bool)
    (cursor : ℚ × ℚ) : Option (ℕ × Bool) :=
  (bestLoop used cursor segments 0 none).map (fun b => (b.1, b.2.1))

/-- Outer greedy loop of `stitchPath`: repeatedly append the best unused
segment (forward or reversed), dropping the segment's leading coordinate when
it duplicates the path's trailing coordinate (squared distance `< 1e-10`),
then advance the cursor to the new trailing coordinate. The fuel is the
segment count, matching the `for (step = 0; step < segments.length; ...)`
loop; the `usedCount` accumulator mirrors `used.size`. -/
def stitchLoop (segments : List (List (ℚ × ℚ))) :
    ℕ → List Bool → List (ℚ × ℚ) → ℚ × ℚ → ℕ → List (ℚ × ℚ) × ℕ
  | 0, _, ordered, _, usedCount => (ordered, usedCount)
  | fuel + 1, used, ordered, cursor, usedCount =>
    match bestSegment segments used cursor with
    | none => (ordered, usedCount)
    | some (bi, brev) =>
      let used' := used.set bi true
      let matched := (segments.get? bi).getD []
      let segCoords := if brev then matched.reverse else matched
      let ordered' :=
        if ordered.length > 0 then
          let lastAdded := ordered.getLastD (0, 0)
          let firstCoord := segCoords.headD (0, 0)
          let startIdx := if stitchSegDist lastAdded firstCoord < stitchEps then 1 else 0
          ordered ++ segCoords.drop startIdx
        else ordered ++ segCoords
      let cursor' := ordered'.getLastD (0, 0)
      stitchLoop segments fuel used' ordered' cursor' (usedCount + 1)

/-- `stitchPath(routeIds, startLngLat?)`: resolve each corridor id in the
store, skip corridors that are absent or have no geometry, flatten
multi-part lines in source order, keep only segments with at least two
coordinates; return `null` if none remain, else greedily stitch them from
the anchor (default: the Gammon plant) into `{coordinates, segmentCount}`. -/
def stitchPath (env : Env) (routeIds : List ℕ) (startLngLat : Option (ℚ × ℚ)) :
    Option (List (ℚ × ℚ) × ℕ) :=
  let segments := routeIds.filterMap (fun routeId =>
    match env.allCorridors routeId with
    | none => none
    | some corridor =>
      match corridor.geometry with
      | none => none
      | some geom =>
        let coords :=
          match geom with
          | .lineString cs => cs
          | .multiLineString ls => ls.flatten
        if coords.length ≥ 2 then some coords else none)
  if segments.length = 0 then none
  else
    let START := startLngLat.getD GAMMON_START
    some (stitchLoop segments segments.length
      (List.replicate segments.length false) [] START 0)

/-- Concrete corridor store for the C8 scenario: corridor 1 is the line
segment `[[0,0],[1,0]]`, corridor 2 is `[[1,0],[2,0]]`. -/
def c8Env : Env where
  corridors := fun _ => none
  allCorridors := fun routeId =>
    if routeId = 1 then
      some ⟨some (.lineString [((0 : ℚ), (0 : ℚ)), (1, 0)])⟩
    else if routeId = 2 then
      some ⟨some (.lineString [((1 : ℚ), (0 : ℚ)), (2, 0)])⟩
    else none
  projectPaths := fun _ => []
  calcDist := fun _ => 0
  calcDistGeom := fun _ => 0
  interp := fun _ _ => none

/-- **C8.** Stitching exactly the two usable segments `[[0,0],[1,0]]` and
`[[1,0],[2,0]]` from start anchor `(0,0)` produces the stitched path
`[[0,0],[1,0],[2,0]]` with segmentCount 2: the shared junction coordinate
(squared distance `< 1e-10` between the path's trailing coordinate and the
next segment's leading coordinate) appears only once. -/
theorem c8_stitch_two_segments :
    stitchPath c8Env [1, 2] (some ((0 : ℚ), (0 : ℚ))) =
      some ([((0 : ℚ), (0 : ℚ)), (1, 0), (2, 0)], 2) := by
  have hseg : ([1, 2] : List ℕ).filterMap (fun routeId =>
      match c8Env.allCorridors routeId with
      | none => none
      | some corridor =>
        match corridor.geometry with
        | none => none
        | some geom =>
          let coords :=
            match geom with
            | .lineString cs => cs
            | .multiLineString ls => ls.flatten
          if coords.length ≥ 2 then some coords else none) =
      [[((0 : ℚ), (0 : ℚ)), (1, 0)], [((1 : ℚ), (0 : ℚ)), (2, 0)]] := by
    norm_num [c8Env, List.filterMap_cons, List.filterMap_nil]
  rw [stitchPath, hseg]
  norm_num [stitchLoop, bestSegment, bestLoop, stitchSegDist, stitchEps]

/-! ## Delivery engine state -/

/-- `ConcreteTruck` — the central mutable entity. `currentPosition` is an
`Option` because `interpolatePosition` may return no position (the source
assigns its result directly in `tickDelivery` and falls back with `??`
elsewhere); literal positions are wrapped in `some`. -/
structure ConcreteTruck where
  truckId : String
  truckNumber : Int
  routeId : Int
  pathId : PathId
  status : TruckStatus
  currentPosition : Option (ℚ × ℚ)
  progressRatio : ℚ
  departureTime : ℚ
  arrivalTime : Option ℚ
  estimatedArrival : ℚ
  elapsedSeconds : ℚ
  totalDistance : ℚ
  currentSpeed : ℚ
  concreteVolume : ℚ
deriving DecidableEq

/-- `DeliveryRecord` — an append-only delivery-log entry. -/
structure DeliveryRecord where
  truckId : String
  truckNumber : Int
  routeId : Int
  departureTime : ℚ
  arrivalTime : ℚ
  travelTimeSeconds : ℚ
  concreteVolume : ℚ
  cumulativeVolume : ℚ
  hourWindow : Int
deriving DecidableEq

/-- A stitched path geometry `{ coordinates, segmentCount }`. -/
structure GeomInfo where
  coordinates : List (ℚ × ℚ)
  segmentCount : ℕ
deriving DecidableEq

/-- `DeliveryConfig`, including the per-path geometries
(`Record<PathId, {coordinates, segmentCount} | null>`). -/
structure DeliveryConfig where
  routeId : Int
  targetVolume : ℚ
  volumePerTruck : ℚ
  trucksPerHour : ℚ
  startTime : ℚ
  defaultSpeed : ℚ
  pathGeometries : PathId → Option GeomInfo

/-- The module-level mutable state of `truckService.ts`, made explicit. -/
structure DeliveryState where
  config : Option DeliveryConfig
  activeTrucks : List (String × ConcreteTruck)
  deliveryLog : List DeliveryRecord
  nextTruckNumber : Int
  nextDispatchTime : Option ℚ
  isRunning : Bool
  tripToTruckId : List (String × String)

/-- `AUTO_DISPATCH_ENABLED = false`: automatic dispatch is disabled in this
revision (dispatch is externally driven by real trip records). -/
def AUTO_DISPATCH_ENABLED : Bool := false

/-- The base path used by the DB-reconciliation helpers and the session
summary: `config.pathGeometries.GAMMON_TM || config.pathGeometries.HKC_TY`. -/
def basePath (config : DeliveryConfig) : Option GeomInfo :=
  (config.pathGeometries PathId.GAMMON_TM).orElse
    (fun _ => config.pathGeometries PathId.HKC_TY)

/-- `deliveryLog.reduce((s, r) => s + r.concreteVolume, 0)`. -/
def sumVol (log : List DeliveryRecord) : ℚ :=
  (log.map (fun r => r.concreteVolume)).sum

/-- JS `Math.round`: round half towards positive infinity. -/
def jsRound (q : ℚ) : Int := ⌊q + 1 / 2⌋

/-! ## Completion paths -/

/-- `completeTruck(truckId, now)`: mark the truck arrived at `now` with
progress exactly 1, compute the (unclamped) hour window
`Math.floor((now - config.startTime) / 3600000)`, and append a
`DeliveryRecord` whose cumulative volume is the sum of all prior record
volumes plus this truck's volume. The truck stays in the active map. -/
def completeTruck (truckId : String) (now : ℚ) (s : DeliveryState) : DeliveryState :=
  match alGet s.activeTrucks truckId, s.config with
  | some truck, some config =>
      let truck' := { truck with
        status := TruckStatus.arrived
        arrivalTime := some now
        progressRatio := 1 }
      let elapsedMs := now - config.startTime
      let hourWindow := ⌊elapsedMs / 3600000⌋
      let cumulativeVol := sumVol s.deliveryLog + truck.concreteVolume
      { s with
        activeTrucks := alSet s.activeTrucks truckId truck'
        deliveryLog := s.deliveryLog ++ [{
          truckId := truckId
          truckNumber := truck.truckNumber
          routeId := truck.routeId
          departureTime := truck.departureTime
          arrivalTime := now
          travelTimeSeconds := truck.elapsedSeconds
          concreteVolume := truck.concreteVolume
          cumulativeVolume := cumulativeVol
          hourWindow := hourWindow }] }
  | _, _ => s

/-- `completeTruckFromDb(tripId, arrivalTime)`: resolve the truck through the
trip-to-truck mapping, compute the clamped hour window
`Math.max(0, Math.floor((arrivalTime - config.startTime) / 3600000))` and the
cumulative volume exactly as `completeTruck` does, append the record, then
delete both the truck from the active map and the mapping entry. (The source
also mutates the truck object before deleting it; the mutation has no effect
on the surviving state.) -/
def completeTruckFromDb (tripId : String) (arrivalTime : ℚ) (s : DeliveryState) :
    DeliveryState :=
  match alGet s.tripToTruckId tripId with
  | none => s
  | some truckId =>
    match alGet s.activeTrucks truckId, s.config with
    | some truck, some config =>
        let elapsedMs := arrivalTime - config.startTime
        let hourWindow := max 0 ⌊elapsedMs / 3600000⌋
        let cumulativeVol := sumVol s.deliveryLog + truck.concreteVolume
        { s with
          activeTrucks := alDelete s.activeTrucks truckId
          tripToTruckId := alDelete s.tripToTruckId tripId
          deliveryLog := s.deliveryLog ++ [{
            truckId := truck.truckId
            truckNumber := truck.truckNumber
            routeId := truck.routeId
            departureTime := truck.departureTime
            arrivalTime := arrivalTime
            travelTimeSeconds := truck.elapsedSeconds
            concreteVolume := truck.concreteVolume
            cumulativeVolume := cumulativeVol
            hourWindow := hourWindow }] }
    | _, _ => s

/-! ## DB-trip reconciliation -/

/-- External trip record (`DbTrip`); timestamps are `Option ℚ` ms. -/
inductive TripStatus
  | planned
  | inProgress
  | completed
deriving DecidableEq

structure DbTrip where
  id : String
  vehicle_id : String
  actual_start_at : Option ℚ
  actual_arrival_at : Option ℚ
  status : TripStatus
  corrected : Option Bool
deriving DecidableEq

/-- The progress ratio `addTruckFromTrip` derives for a trip:
`min(elapsedSinceTripStart / travelTimeAtCappedSpeed, 1)` with
`elapsed = max(0, (now - actual_start_at)/1000)` seconds and
`travelTime = (totalDist / min(speedKmh, MIXER_MAX_SPEED)) * 3600` seconds. -/
def tripProgressRatio (actualStartAt totalDist speedKmh now : ℚ) : ℚ :=
  let speed := min speedKmh MIXER_MAX_SPEED
  let travelTimeSeconds := totalDist / speed * 3600
  let elapsedSeconds := max 0 ((now - actualStartAt) / 1000)
  min (elapsedSeconds / travelTimeSeconds) 1

/-- The dummy config `ensureConfigForDb` installs (`dummyCoords = []`, so
the `GAMMON_TM` geometry is empty with segment count 0); its `startTime` is
the current time. -/
def dbDummyConfig (now : ℚ) : DeliveryConfig where
  routeId := 0
  targetVolume := 600
  volumePerTruck := 8
  trucksPerHour := 12
  startTime := now
  defaultSpeed := 40
  pathGeometries := fun p =>
    match p with
    | PathId.GAMMON_TM => some { coordinates := [], segmentCount := 0 }
    | PathId.HKC_TY => none
    | PathId.FUTURE_PATH => none

/-- `ensureConfigForDb()`: install the dummy session config if none exists. -/
def ensureConfigForDb (now : ℚ) (s : DeliveryState) : DeliveryState :=
  match s.config with
  | some _ => s
  | none =>
      { s with
        config := some (dbDummyConfig now)
        isRunning := true }

/-- The in-place update `addTruckFromTrip` applies to an already-tracked
truck: progress ratio raised to the max of existing and derived values, and
the position re-interpolated at the raised ratio (keeping the old position
when interpolation yields nothing, mirroring `?? existing.currentPosition`). -/
def hydratedTruckUpdate (env : Env) (base : GeomInfo) (progressRatio : ℚ)
    (existing : ConcreteTruck) : ConcreteTruck :=
  let newRatio := max existing.progressRatio progressRatio
  { existing with
    progressRatio := newRatio
    currentPosition :=
      match env.interp base.coordinates newRatio with
      | some p => some p
      | none => existing.currentPosition }

/-- The truck `addTruckFromTrip` creates for a not-yet-tracked trip. -/
def newTripTruck (env : Env) (config : DeliveryConfig) (base : GeomInfo)
    (trip : DbTrip) (nextNum : Int)
    (startTime travelTimeSeconds elapsedSeconds progressRatio totalDist speed now : ℚ) :
    ConcreteTruck :=
  let startPos : ℚ × ℚ :=
    match base.coordinates with
    | [] => (0, 0)
    | c :: _ => c
  { truckId := "TRIP-" ++ trip.id
    truckNumber := nextNum + 1
    routeId := config.routeId
    pathId := PathId.GAMMON_TM
    status := if progressRatio ≥ 1 then TruckStatus.arrived else TruckStatus.enRoute
    currentPosition :=
      match env.interp base.coordinates progressRatio with
      | some p => some p
      | none => some startPos
    progressRatio := progressRatio
    departureTime := startTime
    arrivalTime := if progressRatio ≥ 1 then some now else none
    estimatedArrival := startTime + travelTimeSeconds * 1000
    elapsedSeconds := elapsedSeconds
    totalDistance := totalDist
    currentSpeed := speed
    concreteVolume := config.volumePerTruck }

/-- `addTruckFromTrip(trip, totalDist, speedKmh)` (`now` made explicit):
derive progress from trip start time; if the trip id is already mapped to a
truck in the active map, raise that truck's progress to the max of existing
and derived values and refresh its position (`?? existing position`); if the
trip id is mapped but the truck is gone, skip (do not re-create); otherwise
create the truck keyed `TRIP-<id>` (pre-incrementing the truck-number
counter), record the mapping, and archive immediately via
`completeTruckFromDb` when the derived progress has already reached 1. -/
def addTruckFromTrip (env : Env) (trip : DbTrip) (totalDist speedKmh now : ℚ)
    (s : DeliveryState) : Option ConcreteTruck × DeliveryState :=
  match s.config with
  | none => (none, s)
  | some config =>
    match basePath config with
    | none => (none, s)
    | some base =>
      match trip.actual_start_at with
      | none => (none, s)
      | some startTime =>
        let speed := min speedKmh MIXER_MAX_SPEED
        let travelTimeSeconds := totalDist / speed * 3600
        let elapsedSeconds := max 0 ((now - startTime) / 1000)
        let progressRatio := tripProgressRatio startTime totalDist speedKmh now
        match alGet s.tripToTruckId trip.id with
        | some existingId =>
          match alGet s.activeTrucks existingId with
          | some existing =>
              let existing' := hydratedTruckUpdate env base progressRatio existing
              (some existing',
               { s with activeTrucks := alSet s.activeTrucks existingId existing' })
          | none => (none, s)
        | none =>
          let truckId := "TRIP-" ++ trip.id
          let truck := newTripTruck env config base trip s.nextTruckNumber startTime
            travelTimeSeconds elapsedSeconds progressRatio totalDist speed now
          let s' := { s with
            activeTrucks := alSet s.activeTrucks truckId truck
            tripToTruckId := alSet s.tripToTruckId trip.id truckId
            nextTruckNumber := s.nextTruckNumber + 1 }
          if truck.status = TruckStatus.arrived then
            (some truck, completeTruckFromDb trip.id now s')
          else (some truck, s')

/-- `hydrateFromTrips(trips, defaultSpeedKmh)` (`now` made explicit): ensure
a config exists, compute the base-path distance once
(`calculateRouteDistance(base.coordinates)`), bail out when it is not
positive, then run `addTruckFromTrip` for every trip whose status is
`in_progress`. -/
def hydrateFromTrips (env : Env) (trips : List DbTrip) (defaultSpeedKmh now : ℚ)
    (s : DeliveryState) : DeliveryState :=
  let s := ensureConfigForDb now s
  match s.config with
  | none => s
  | some config =>
    match basePath config with
    | none => s
    | some base =>
      let totalDist := env.calcDist base.coordinates
      if totalDist ≤ 0 then s
      else
        trips.foldl (fun st trip =>
          if trip.status = TripStatus.inProgress then
            (addTruckFromTrip env trip totalDist defaultSpeedKmh now st).2
          else st) s

/-! ## Dispatch, tick, session start -/

/-- `String(n).padStart(3, '0')`. -/
def pad3 (n : Int) : String :=
  let str := toString n
  if str.length ≥ 3 then str
  else String.mk (List.replicate (3 - str.length) '0') ++ str

/-- `dispatchTruck(pathId)` (`now` made explicit): no-op without config, when
not running, without usable geometry, or once
`dispatchedCount ≥ totalTrucksNeeded`; otherwise create a fresh `EN_ROUTE`
truck at progress 0 keyed `CMX-<zero-padded number>`, insert it, increment
the dispatch counter, and schedule the next dispatch one interval ahead. -/
def dispatchTruck (env : Env) (pathId : PathId) (now : ℚ) (s : DeliveryState) :
    Option ConcreteTruck × DeliveryState :=
  match s.config with
  | none => (none, s)
  | some config =>
    if ¬ s.isRunning then (none, s)
    else
      match config.pathGeometries pathId with
      | none => (none, s)
      | some geomInfo =>
        if geomInfo.coordinates = [] then (none, s)
        else
          let totalNeeded := ⌈config.targetVolume / config.volumePerTruck⌉
          let totalDispatched := s.nextTruckNumber - 1
          if totalDispatched ≥ totalNeeded then (none, s)
          else
            let totalDist := env.calcDist geomInfo.coordinates
            let currentSpeed := getPathAverageSpeed env pathId config.defaultSpeed
            let travelTimeSeconds := totalDist / currentSpeed * 3600
            let startPos : ℚ × ℚ :=
              match geomInfo.coordinates with
              | [] => (0, 0)
              | c :: _ => c
            let truckId := "CMX-" ++ pad3 s.nextTruckNumber
            let truck : ConcreteTruck := {
              truckId := truckId
              truckNumber := s.nextTruckNumber
              routeId := config.routeId
              pathId := pathId
              status := TruckStatus.enRoute
              currentPosition := some startPos
              progressRatio := 0
              departureTime := now
              arrivalTime := none
              estimatedArrival := now + travelTimeSeconds * 1000
              elapsedSeconds := 0
              totalDistance := totalDist
              currentSpeed := currentSpeed
              concreteVolume := config.volumePerTruck }
            let intervalMs := 60 / config.trucksPerHour * 60 * 1000
            (some truck, { s with
              activeTrucks := alSet s.activeTrucks truckId truck
              nextTruckNumber := s.nextTruckNumber + 1
              nextDispatchTime := some (now + intervalMs) })

/-- Per-truck body of the `tickDelivery` loop: skip non-`en-route` trucks and
trucks whose path has no usable geometry; otherwise advance elapsed time,
refresh the live speed, compute the new progress ratio as
`max(existing, min(distCovered / totalDistance, 1))`, re-interpolate the
position, recompute the ETA, and complete the truck when progress reached 1. -/
def tickedTruck (env : Env) (config : DeliveryConfig) (geomInfo : GeomInfo)
    (dtSeconds now : ℚ) (truck : ConcreteTruck) : ConcreteTruck :=
  let elapsedSeconds := truck.elapsedSeconds + dtSeconds
  let liveSpeed := getPathAverageSpeed env truck.pathId config.defaultSpeed
  let distCovered := liveSpeed * elapsedSeconds / 3600
  let newProgress := min (distCovered / truck.totalDistance) 1
  let progressRatio := max truck.progressRatio newProgress
  let remainingDist := truck.totalDistance * (1 - progressRatio)
  let remainingSeconds := remainingDist / liveSpeed * 3600
  { truck with
    elapsedSeconds := elapsedSeconds
    currentSpeed := liveSpeed
    progressRatio := progressRatio
    currentPosition := env.interp geomInfo.coordinates progressRatio
    estimatedArrival := now + remainingSeconds * 1000 }

def tickTruck (env : Env) (dtSeconds now : ℚ) (s : DeliveryState) (truckId : String) :
    DeliveryState :=
  match s.config with
  | none => s
  | some config =>
    match alGet s.activeTrucks truckId with
    | none => s
    | some truck =>
      if truck.status ≠ TruckStatus.enRoute then s
      else
        match config.pathGeometries truck.pathId with
        | none => s
        | some geomInfo =>
          if geomInfo.coordinates = [] then s
          else
            let truck' := tickedTruck env config geomInfo dtSeconds now truck
            let s' := { s with activeTrucks := alSet s.activeTrucks truckId truck' }
            if truck'.progressRatio ≥ 1 then completeTruck truckId now s' else s'

/-- `tickDelivery(dtSeconds)` (`now` made explicit): no-op without config or
when not running; auto-dispatch is gated by `AUTO_DISPATCH_ENABLED` (false);
then every truck in the active map is processed in map order. -/
def tickDelivery (env : Env) (dtSeconds now : ℚ) (s : DeliveryState) : DeliveryState :=
  match s.config with
  | none => s
  | some _ =>
    if ¬ s.isRunning then s
    else
      let s₁ :=
        match s.nextDispatchTime with
        | some t =>
            if now ≥ t ∧ AUTO_DISPATCH_ENABLED then
              (dispatchTruck env PathId.GAMMON_TM now s).2
            else s
        | none => s
      (keys s₁.activeTrucks).foldl (tickTruck env dtSeconds now) s₁

/-- The session config argument of `startDeliverySession`
(`Omit<DeliveryConfig, 'pathGeometries'>`). -/
structure SessionConfig where
  routeId : Int
  targetVolume : ℚ
  volumePerTruck : ℚ
  trucksPerHour : ℚ
  startTime : ℚ
  defaultSpeed : ℚ

/-- The summary returned by `startDeliverySession` (the display-only
`message` string and decimal formatting are omitted). -/
structure SessionSummary where
  totalTrucksNeeded : Int
  intervalMinutes : ℚ
  totalDistance : ℚ
  segmentCount : ℕ

/-- `startDeliverySession(sessionConfig, pathGeometries)`: clear the active
trucks and the delivery log, reset the dispatch counter to 1, mark the
session running, store the config (with geometries), set the next-dispatch
timestamp to the configured start time, and dispatch once only when
`AUTO_DISPATCH_ENABLED` — which is false in this revision. The trip-to-truck
mapping is not cleared. -/
def startDeliverySession (env : Env) (sessionConfig : SessionConfig)
    (pathGeometries : PathId → Option GeomInfo) (now : ℚ) (s : DeliveryState) :
    SessionSummary × DeliveryState :=
  let config : DeliveryConfig := {
    routeId := sessionConfig.routeId
    targetVolume := sessionConfig.targetVolume
    volumePerTruck := sessionConfig.volumePerTruck
    trucksPerHour := sessionConfig.trucksPerHour
    startTime := sessionConfig.startTime
    defaultSpeed := sessionConfig.defaultSpeed
    pathGeometries := pathGeometries }
  let s₁ : DeliveryState := { s with
    activeTrucks := []
    deliveryLog := []
    nextTruckNumber := 1
    isRunning := true
    config := some config
    nextDispatchTime := some config.startTime }
  let base := basePath config
  let totalDist := match base with | some b => env.calcDist b.coordinates | none => 0
  let segmentCount := match base with | some b => b.segmentCount | none => 0
  let intervalMinutes := 60 / config.trucksPerHour
  let totalTrucksNeeded := ⌈config.targetVolume / config.volumePerTruck⌉
  let s₂ := if AUTO_DISPATCH_ENABLED then (dispatchTruck env PathId.GAMMON_TM now s₁).2 else s₁
  ({ totalTrucksNeeded := totalTrucksNeeded
     intervalMinutes := intervalMinutes
     totalDistance := totalDist
     segmentCount := segmentCount }, s₂)

/-! ## Throughput analysis -/

/-- `getBaselineTravelTime()`: base-path distance over the capped default
speed, in seconds; 1800 when no config or no base path. -/
def getBaselineTravelTime (env : Env) (s : DeliveryState) : ℚ :=
  match s.config with
  | none => 1800
  | some config =>
    match basePath config with
    | none => 1800
    | some base =>
      env.calcDist base.coordinates / min config.defaultSpeed MIXER_MAX_SPEED * 3600

/-- One row of the hourly breakdown `{hour, target, actual, diff}`; the
target is a plain number (only the current partial hour's target is
floored). -/
structure HourlyRow where
  hour : ℕ
  target : ℚ
  actual : ℕ
  diff : ℚ
deriving DecidableEq

/-- The result record of `getThroughputAnalysis()`. -/
structure ThroughputAnalysis where
  currentWindow : Int
  windowTarget : Int
  windowActual : ℕ
  windowShortfall : Int
  hourlyBreakdown : List HourlyRow
  actualRate : ℚ
  behindSchedule : Bool
  delayMinutes : Int
deriving DecidableEq

/-- `getThroughputAnalysis()` (`now` made explicit): pro-rated expected
arrivals `Math.floor(elapsedHours * trucksPerHour)` against actual
completions, hourly breakdown with the current hour's target pro-rated,
actual rate rounded to one decimal, `behindSchedule` iff the shortfall
`max(0, expectedByNow - actualTotal)` is positive, and a projected delay. -/
def getThroughputAnalysis (env : Env) (now : ℚ) (s : DeliveryState) :
    ThroughputAnalysis :=
  match s.config with
  | none =>
      { currentWindow := 0, windowTarget := 0, windowActual := 0, windowShortfall := 0
        hourlyBreakdown := [], actualRate := 0, behindSchedule := false, delayMinutes := 0 }
  | some config =>
    let elapsedMs := now - config.startTime
    let elapsedHours := elapsedMs / 3600000
    let currentWindow : Int := ⌊elapsedHours⌋
    let fractionIntoCurrentHour := elapsedHours - currentWindow
    let expectedByNow : Int := ⌊elapsedHours * config.trucksPerHour⌋
    let actualTotal : ℕ := s.deliveryLog.length
    let maxWindow := currentWindow + 1
    let hourlyBreakdown := (List.range maxWindow.toNat).map (fun (h : ℕ) =>
      let arrivalsInWindow := (s.deliveryLog.filter (fun r => r.hourWindow = (h : Int))).length
      let target : ℚ :=
        if (h : Int) = currentWindow then
          ((⌊fractionIntoCurrentHour * config.trucksPerHour⌋ : Int) : ℚ)
        else config.trucksPerHour
      { hour := h
        target := target
        actual := arrivalsInWindow
        diff := (arrivalsInWindow : ℚ) - target })
    let currentWindowArrivals :=
      (s.deliveryLog.filter (fun r => r.hourWindow = currentWindow)).length
    let currentWindowTarget : Int := ⌊fractionIntoCurrentHour * config.trucksPerHour⌋
    let actualRate : ℚ := if elapsedHours > 0 then (actualTotal : ℚ) / elapsedHours else 0
    let shortfall : Int := max 0 (expectedByNow - (actualTotal : Int))
    let behindSchedule := shortfall > 0
    let totalNeeded := ⌈config.targetVolume / config.volumePerTruck⌉
    let delayMinutes : Int :=
      if actualTotal > 0 ∧ actualRate > 0 then
        let trucksRemaining := (totalNeeded : ℚ) - (actualTotal : ℚ)
        let hoursToFinish := trucksRemaining / actualRate
        let projectedFinish := now + hoursToFinish * 3600000
        let plannedHoursTotal := (totalNeeded : ℚ) / config.trucksPerHour
        let plannedTravelSeconds := getBaselineTravelTime env s
        let plannedFinish :=
          config.startTime + plannedHoursTotal * 3600000 + plannedTravelSeconds * 1000
        max 0 (jsRound ((projectedFinish - plannedFinish) / 60000))
      else 0
    { currentWindow := currentWindow
      windowTarget := currentWindowTarget
      windowActual := currentWindowArrivals
      windowShortfall := max 0 (currentWindowTarget - (currentWindowArrivals : Int))
      hourlyBreakdown := hourlyBreakdown
      actualRate := ((jsRound (actualRate * 10) : Int) : ℚ) / 10
      behindSchedule := decide behindSchedule
      delayMinutes := delayMinutes }

/-! ## Operation sequences -/

/-- One call into the engine, for stating properties of call sequences. -/
inductive SimOp where
  | tick (dtSeconds now : ℚ)
  | complete (truckId : String) (now : ℚ)
  | addTrip (trip : DbTrip) (totalDist speedKmh now : ℚ)
  | completeDb (tripId : String) (arrivalTime : ℚ)
  | hydrate (trips : List DbTrip) (defaultSpeedKmh now : ℚ)

/-- Apply one engine call to the state. -/
def applySimOp (env : Env) (s : DeliveryState) : SimOp → DeliveryState
  | SimOp.tick dt now => tickDelivery env dt now s
  | SimOp.complete truckId now => completeTruck truckId now s
  | SimOp.addTrip trip d sp now => (addTruckFromTrip env trip d sp now s).2
  | SimOp.completeDb tripId t => completeTruckFromDb tripId t s
  | SimOp.hydrate trips sp now => hydrateFromTrips env trips sp now s

/-- Apply a sequence of engine calls left to right. -/
def applySimOps (env : Env) (s : DeliveryState) (ops : List SimOp) : DeliveryState :=
  ops.foldl (applySimOp env) s

/-! ## Well-formedness invariants

In this revision `AUTO_DISPATCH_ENABLED = false`, so `dispatchTruck` is
unreachable (its only call sites are guarded by the flag) and every truck in
the active map is DB-backed, created by `addTruckFromTrip` under a
`TRIP-<tripId>` key together with its trip mapping. -/

/-- State well-formedness, preserved by every engine call: progress ratios
never exceed 1, arrived trucks sit at progress exactly 1, both maps have
duplicate-free key lists, every mapping entry maps a trip id to its
`TRIP-`-prefixed truck id, and every active truck is the target of some
mapping entry. -/
structure WF (s : DeliveryState) : Prop where
  le_one : ∀ p ∈ s.activeTrucks, p.2.progressRatio ≤ 1
  arrived_one : ∀ p ∈ s.activeTrucks,
    p.2.status = TruckStatus.arrived → p.2.progressRatio = 1
  ndTrucks : (keys s.activeTrucks).Nodup
  ndTrips : (keys s.tripToTruckId).Nodup
  mapTrip : ∀ q ∈ s.tripToTruckId, q.2 = "TRIP-" ++ q.1
  trucksMapped : ∀ p ∈ s.activeTrucks, ∃ q ∈ s.tripToTruckId, q.2 = p.1

/-- In a well-formed state, a trip id with no mapping entry has no truck
under its `TRIP-` key either, so `addTruckFromTrip`'s creation branch never
overwrites an existing truck. -/
theorem trip_key_not_mem {s : DeliveryState} (hWF : WF s) (tripId : String)
    (hnone : alGet s.tripToTruckId tripId = none) :
    ("TRIP-" ++ tripId) ∉ keys s.activeTrucks := by
  intro hk
  obtain ⟨p, hp, hpk⟩ := List.mem_map.mp hk
  obtain ⟨q, hq, hq2⟩ := hWF.trucksMapped p hp
  have hq3 := hWF.mapTrip q hq
  have hqk : q.1 = tripId := by
    apply string_append_left_cancel (a := "TRIP-")
    rw [← hq3, hq2, hpk]
  have hsome : alGet s.tripToTruckId q.1 = some q.2 :=
    alGet_of_mem_nodup hWF.ndTrips (by rw [Prod.mk.eta]; exact hq)
  rw [hqk, hnone] at hsome
  exact Option.noConfusion hsome

/-- `completeTruck` preserves well-formedness. -/
theorem completeTruck_WF (truckId : String) (now : ℚ) (s : DeliveryState)
    (hWF : WF s) : WF (completeTruck truckId now s) := by
  unfold completeTruck
  rcases hget : alGet s.activeTrucks truckId with _ | truck
  · rcases s.config with _ | config <;> exact hWF
  · rcases hcfg : s.config with _ | config
    · exact hWF
    · refine ⟨?_, ?_, ?_, hWF.ndTrips, hWF.mapTrip, ?_⟩
      · intro p hp
        rcases mem_alSet hp with hp | hp
        · rw [hp]
        · exact hWF.le_one p hp
      · intro p hp harr
        rcases mem_alSet hp with hp | hp
        · rw [hp]
        · exact hWF.arrived_one p hp harr
      · show (keys (alSet s.activeTrucks truckId _)).Nodup
        rw [keys_alSet_of_mem _ _ _ (mem_keys_of_alGet_eq_some hget)]
        exact hWF.ndTrucks
      · intro p hp
        rcases mem_alSet hp with hp | hp
        · obtain ⟨q, hq, hq2⟩ :=
            hWF.trucksMapped (truckId, truck) (mem_of_alGet_eq_some hget)
          exact ⟨q, hq, by rw [hp]; exact hq2⟩
        · exact hWF.trucksMapped p hp

/-- `completeTruck` never lowers a truck's progress ratio, and never removes
a truck from the active map. -/
theorem completeTruck_mono (truckId k : String) (now : ℚ) (s : DeliveryState)
    (hWF : WF s) (t : ConcreteTruck) (ht : alGet s.activeTrucks k = some t) :
    ∃ t', alGet (completeTruck truckId now s).activeTrucks k = some t' ∧
      t.progressRatio ≤ t'.progressRatio := by
  unfold completeTruck
  rcases hget : alGet s.activeTrucks truckId with _ | truck
  · rcases s.config with _ | config <;> exact ⟨t, ht, le_refl _⟩
  · rcases hcfg : s.config with _ | config
    · exact ⟨t, ht, le_refl _⟩
    · by_cases hk : truckId = k
      · subst hk
        refine ⟨_, alGet_alSet_self .., ?_⟩
        have : t = truck := by rw [ht] at hget; exact Option.some.inj hget
        subst this
        exact hWF.le_one (truckId, t) (mem_of_alGet_eq_some ht)
      · exact ⟨t, by rw [alGet_alSet_ne _ _ _ _ hk]; exact ht, le_refl _⟩

/-- Once a truck in the map is arrived, `completeTruck` keeps it present,
arrived and at progress exactly 1. -/
theorem completeTruck_arrived_stable (truckId k : String) (now : ℚ)
    (s : DeliveryState) (hWF : WF s) (t : ConcreteTruck)
    (ht : alGet s.activeTrucks k = some t) (harr : t.status = TruckStatus.arrived) :
    ∃ t', alGet (completeTruck truckId now s).activeTrucks k = some t' ∧
      t'.status = TruckStatus.arrived ∧ t'.progressRatio = 1 := by
  have hone := hWF.arrived_one (k, t) (mem_of_alGet_eq_some ht) harr
  unfold completeTruck
  rcases hget : alGet s.activeTrucks truckId with _ | truck
  · rcases s.config with _ | config <;> exact ⟨t, ht, harr, hone⟩
  · rcases hcfg : s.config with _ | config
    · exact ⟨t, ht, harr, hone⟩
    · by_cases hk : truckId = k
      · subst hk
        exact ⟨_, alGet_alSet_self .., rfl, rfl⟩
      · exact ⟨t, by rw [alGet_alSet_ne _ _ _ _ hk]; exact ht, harr, hone⟩

/-- `completeTruckFromDb` preserves well-formedness. -/
theorem completeTruckFromDb_WF (tripId : String) (tArr : ℚ) (s : DeliveryState)
    (hWF : WF s) : WF (completeTruckFromDb tripId tArr s) := by
  unfold completeTruckFromDb
  rcases hmap : alGet s.tripToTruckId tripId with _ | truckId
  · exact hWF
  · dsimp only
    rcases hget : alGet s.activeTrucks truckId with _ | truck
    · rcases s.config with _ | config <;> exact hWF
    · rcases hcfg : s.config with _ | config
      · exact hWF
      · refine ⟨?_, ?_, ?_, ?_, ?_, ?_⟩
        · intro p hp
          exact hWF.le_one p (mem_of_mem_alDelete hp)
        · intro p hp harr
          exact hWF.arrived_one p (mem_of_mem_alDelete hp) harr
        · exact nodup_keys_alDelete _ hWF.ndTrucks
        · exact nodup_keys_alDelete _ hWF.ndTrips
        · intro q hq
          exact hWF.mapTrip q (mem_of_mem_alDelete hq)
        · intro p hp
          obtain ⟨q, hq, hq2⟩ := hWF.trucksMapped p (mem_of_mem_alDelete hp)
          have hqne : q.1 ≠ tripId := by
            intro hEq
            have hqget : alGet s.tripToTruckId q.1 = some q.2 :=
              alGet_of_mem_nodup hWF.ndTrips (by rw [Prod.mk.eta]; exact hq)
            rw [hEq, hmap] at hqget
            have hq2' : q.2 = truckId := (Option.some.inj hqget).symm
            have hp1 : p.1 = truckId := by rw [← hq2, hq2']
            have : p.1 ∈ keys (alDelete s.activeTrucks truckId) :=
              List.mem_map.mpr ⟨p, hp, rfl⟩
            rw [hp1] at this
            exact not_mem_keys_alDelete_self hWF.ndTrucks this
          exact ⟨q, mem_alDelete_of_mem_ne hq hqne, hq2⟩

/-- For any truck key other than the one mapped from `tripId`,
`completeTruckFromDb` leaves the lookup unchanged. -/
theorem completeTruckFromDb_get_of_ne (tripId : String) (tArr : ℚ)
    (s : DeliveryState) (k : String)
    (hne : ∀ tid, alGet s.tripToTruckId tripId = some tid → k ≠ tid) :
    alGet (completeTruckFromDb tripId tArr s).activeTrucks k =
      alGet s.activeTrucks k := by
  unfold completeTruckFromDb
  rcases hmap : alGet s.tripToTruckId tripId with _ | truckId
  · rfl
  · dsimp only
    rcases hget : alGet s.activeTrucks truckId with _ | truck
    · rcases s.config with _ | config <;> rfl
    · rcases hcfg : s.config with _ | config
      · rfl
      · exact alGet_alDelete_ne _ _ _ (fun h => hne truckId hmap h.symm)

theorem tripProgressRatio_le_one (a d sp now : ℚ) :
    tripProgressRatio a d sp now ≤ 1 :=
  min_le_right _ _

theorem hydratedTruckUpdate_progressRatio (env : Env) (base : GeomInfo) (r : ℚ)
    (t : ConcreteTruck) :
    (hydratedTruckUpdate env base r t).progressRatio = max t.progressRatio r := rfl

theorem hydratedTruckUpdate_status (env : Env) (base : GeomInfo) (r : ℚ)
    (t : ConcreteTruck) :
    (hydratedTruckUpdate env base r t).status = t.status := rfl

theorem newTripTruck_progressRatio (env : Env) (config : DeliveryConfig)
    (base : GeomInfo) (trip : DbTrip) (n : Int) (a b c r d sp now : ℚ) :
    (newTripTruck env config base trip n a b c r d sp now).progressRatio = r := rfl

theorem newTripTruck_status_arrived_iff (env : Env) (config : DeliveryConfig)
    (base : GeomInfo) (trip : DbTrip) (n : Int) (a b c r d sp now : ℚ) :
    (newTripTruck env config base trip n a b c r d sp now).status =
      TruckStatus.arrived ↔ 1 ≤ r := by
  show (if r ≥ 1 then TruckStatus.arrived else TruckStatus.enRoute) =
    TruckStatus.arrived ↔ 1 ≤ r
  by_cases h : r ≥ 1
  · simp [h]
  · simp only [if_neg h]
    exact ⟨fun hEq => TruckStatus.noConfusion hEq, fun hge => absurd hge h⟩

/-- `addTruckFromTrip` preserves well-formedness. -/
theorem addTruckFromTrip_WF (env : Env) (trip : DbTrip) (d sp now : ℚ)
    (s : DeliveryState) (hWF : WF s) :
    WF (addTruckFromTrip env trip d sp now s).2 := by
  unfold addTruckFromTrip
  rcases hcfg : s.config with _ | config
  · exact hWF
  · dsimp only
    rcases hbase : basePath config with _ | base
    · exact hWF
    · dsimp only
      rcases hstart : trip.actual_start_at with _ | startTime
      · exact hWF
      · dsimp only
        rcases hmap : alGet s.tripToTruckId trip.id with _ | existingId
        · -- creation branch
          dsimp only
          have hknot : ("TRIP-" ++ trip.id) ∉ keys s.activeTrucks :=
            trip_key_not_mem hWF trip.id hmap
          have htripnot : trip.id ∉ keys s.tripToTruckId :=
            not_mem_keys_of_alGet_eq_none hmap
          have hr1 : tripProgressRatio startTime d sp now ≤ 1 :=
            tripProgressRatio_le_one _ _ _ _
          have hWFs' : WF {
              config := some config
              activeTrucks := alSet s.activeTrucks ("TRIP-" ++ trip.id)
                (newTripTruck env config base trip s.nextTruckNumber startTime
                  (d / min sp MIXER_MAX_SPEED * 3600)
                  (max 0 ((now - startTime) / 1000))
                  (tripProgressRatio startTime d sp now) d (min sp MIXER_MAX_SPEED) now)
              deliveryLog := s.deliveryLog
              nextTruckNumber := s.nextTruckNumber + 1
              nextDispatchTime := s.nextDispatchTime
              isRunning := s.isRunning
              tripToTruckId := alSet s.tripToTruckId trip.id ("TRIP-" ++ trip.id) } := by
            refine ⟨?_, ?_, ?_, ?_, ?_, ?_⟩
            · intro p hp
              rcases mem_alSet hp with hp | hp
              · rw [hp]
                exact hr1
              · exact hWF.le_one p hp
            · intro p hp harr
              rcases mem_alSet hp with hp | hp
              · rw [hp] at harr ⊢
                have h1r : 1 ≤ tripProgressRatio startTime d sp now :=
                  (newTripTruck_status_arrived_iff ..).mp harr
                exact le_antisymm hr1 h1r
              · exact hWF.arrived_one p hp harr
            · exact nodup_keys_alSet _ _ hWF.ndTrucks
            · exact nodup_keys_alSet _ _ hWF.ndTrips
            · intro q hq
              rcases mem_alSet hq with hq | hq
              · rw [hq]
              · exact hWF.mapTrip q hq
            · intro p hp
              rcases mem_alSet hp with hp | hp
              · exact ⟨(trip.id, "TRIP-" ++ trip.id), mem_alSet_self .., by rw [hp]⟩
              · obtain ⟨q, hq, hq2⟩ := hWF.trucksMapped p hp
                have hqne : q.1 ≠ trip.id := fun hEq =>
                  htripnot (hEq ▸ List.mem_map.mpr ⟨q, hq, rfl⟩)
                exact ⟨q, mem_alSet_of_mem_ne hq hqne, hq2⟩
          by_cases harr : (newTripTruck env config base trip s.nextTruckNumber startTime
              (d / min sp MIXER_MAX_SPEED * 3600) (max 0 ((now - startTime) / 1000))
              (tripProgressRatio startTime d sp now) d (min sp MIXER_MAX_SPEED) now).status =
              TruckStatus.arrived
          · rw [if_pos harr]
            exact completeTruckFromDb_WF _ _ _ hWFs'
          · rw [if_neg harr]
            exact hWFs'
        · -- already-tracked trip
          dsimp only
          rcases hget : alGet s.activeTrucks existingId with _ | existing
          · exact hWF
          · dsimp only
            refine ⟨?_, ?_, ?_, hWF.ndTrips, hWF.mapTrip, ?_⟩
            · intro p hp
              rcases mem_alSet hp with hp | hp
              · rw [hp]
                exact max_le (hWF.le_one (existingId, existing)
                  (mem_of_alGet_eq_some hget)) (tripProgressRatio_le_one _ _ _ _)
              · exact hWF.le_one p hp
            · intro p hp harr
              rcases mem_alSet hp with hp | hp
              · rw [hp] at harr ⊢
                rw [hydratedTruckUpdate_status] at harr
                rw [hydratedTruckUpdate_progressRatio,
                  hWF.arrived_one (existingId, existing) (mem_of_alGet_eq_some hget) harr]
                exact max_eq_left (tripProgressRatio_le_one _ _ _ _)
              · exact hWF.arrived_one p hp harr
            · show (keys (alSet s.activeTrucks existingId _)).Nodup
              rw [keys_alSet_of_mem _ _ _ (mem_keys_of_alGet_eq_some hget)]
              exact hWF.ndTrucks
            · intro p hp
              rcases mem_alSet hp with hp | hp
              · obtain ⟨q, hq, hq2⟩ := hWF.trucksMapped (existingId, existing)
                  (mem_of_alGet_eq_some hget)
                exact ⟨q, hq, by rw [hp]; exact hq2⟩
              · exact hWF.trucksMapped p hp

/-- `addTruckFromTrip` never lowers the progress ratio of a truck already in
the active map, and never removes it. -/
theorem addTruckFromTrip_mono (env : Env) (trip : DbTrip) (d sp now : ℚ)
    (s : DeliveryState) (hWF : WF s) (k : String) (t : ConcreteTruck)
    (ht : alGet s.activeTrucks k = some t) :
    ∃ t', alGet (addTruckFromTrip env trip d sp now s).2.activeTrucks k = some t' ∧
      t.progressRatio ≤ t'.progressRatio := by
  unfold addTruckFromTrip
  rcases hcfg : s.config with _ | config
  · exact ⟨t, ht, le_refl _⟩
  · dsimp only
    rcases hbase : basePath config with _ | base
    · exact ⟨t, ht, le_refl _⟩
    · dsimp only
      rcases hstart : trip.actual_start_at with _ | startTime
      · exact ⟨t, ht, le_refl _⟩
      · dsimp only
        rcases hmap : alGet s.tripToTruckId trip.id with _ | existingId
        · -- creation branch: the new key is fresh, `k` is untouched
          dsimp only
          have hknot : ("TRIP-" ++ trip.id) ∉ keys s.activeTrucks :=
            trip_key_not_mem hWF trip.id hmap
          have hkne : ("TRIP-" ++ trip.id) ≠ k := by
            intro hEq
            exact hknot (hEq ▸ mem_keys_of_alGet_eq_some ht)
          have hget' : alGet (alSet s.activeTrucks ("TRIP-" ++ trip.id)
              (newTripTruck env config base trip s.nextTruckNumber startTime
                (d / min sp MIXER_MAX_SPEED * 3600) (max 0 ((now - startTime) / 1000))
                (tripProgressRatio startTime d sp now) d (min sp MIXER_MAX_SPEED) now)) k =
              some t := by
            rw [alGet_alSet_ne _ _ _ _ hkne]
            exact ht
          by_cases harr : (newTripTruck env config base trip s.nextTruckNumber startTime
              (d / min sp MIXER_MAX_SPEED * 3600) (max 0 ((now - startTime) / 1000))
              (tripProgressRatio startTime d sp now) d (min sp MIXER_MAX_SPEED) now).status =
              TruckStatus.arrived
          · rw [if_pos harr]
            refine ⟨t, ?_, le_refl _⟩
            rw [completeTruckFromDb_get_of_ne]
            · exact hget'
            · intro tid htid
              rw [alGet_alSet_self] at htid
              rw [(Option.some.inj htid).symm]
              exact fun hEq => hkne hEq.symm
          · rw [if_neg harr]
            exact ⟨t, hget', le_refl _⟩
        · dsimp only
          rcases hget : alGet s.activeTrucks existingId with _ | existing
          · exact ⟨t, ht, le_refl _⟩
          · dsimp only
            by_cases hk : existingId = k
            · subst hk
              have hte : t = existing := by
                rw [ht] at hget
                exact Option.some.inj hget
              subst hte
              refine ⟨_, alGet_alSet_self .., ?_⟩
              rw [hydratedTruckUpdate_progressRatio]
              exact le_max_left _ _
            · exact ⟨t, by rw [alGet_alSet_ne _ _ _ _ hk]; exact ht, le_refl _⟩

/-- Once a truck in the map is arrived, `addTruckFromTrip` keeps it present,
arrived and at progress exactly 1. -/
theorem addTruckFromTrip_arrived_stable (env : Env) (trip : DbTrip) (d sp now : ℚ)
    (s : DeliveryState) (hWF : WF s) (k : String) (t : ConcreteTruck)
    (ht : alGet s.activeTrucks k = some t) (harr : t.status = TruckStatus.arrived) :
    ∃ t', alGet (addTruckFromTrip env trip d sp now s).2.activeTrucks k = some t' ∧
      t'.status = TruckStatus.arrived ∧ t'.progressRatio = 1 := by
  have hone := hWF.arrived_one (k, t) (mem_of_alGet_eq_some ht) harr
  unfold addTruckFromTrip
  rcases hcfg : s.config with _ | config
  · exact ⟨t, ht, harr, hone⟩
  · dsimp only
    rcases hbase : basePath config with _ | base
    · exact ⟨t, ht, harr, hone⟩
    · dsimp only
      rcases hstart : trip.actual_start_at with _ | startTime
      · exact ⟨t, ht, harr, hone⟩
      · dsimp only
        rcases hmap : alGet s.tripToTruckId trip.id with _ | existingId
        · dsimp only
          have hknot : ("TRIP-" ++ trip.id) ∉ keys s.activeTrucks :=
            trip_key_not_mem hWF trip.id hmap
          have hkne : ("TRIP-" ++ trip.id) ≠ k := by
            intro hEq
            exact hknot (hEq ▸ mem_keys_of_alGet_eq_some ht)
          have hget' : alGet (alSet s.activeTrucks ("TRIP-" ++ trip.id)
              (newTripTruck env config base trip s.nextTruckNumber startTime
                (d / min sp MIXER_MAX_SPEED * 3600) (max 0 ((now - startTime) / 1000))
                (tripProgressRatio startTime d sp now) d (min sp MIXER_MAX_SPEED) now)) k =
              some t := by
            rw [alGet_alSet_ne _ _ _ _ hkne]
            exact ht
          by_cases hnew : (newTripTruck env config base trip s.nextTruckNumber startTime
              (d / min sp MIXER_MAX_SPEED * 3600) (max 0 ((now - startTime) / 1000))
              (tripProgressRatio startTime d sp now) d (min sp MIXER_MAX_SPEED) now).status =
              TruckStatus.arrived
          · rw [if_pos hnew]
            refine ⟨t, ?_, harr, hone⟩
            rw [completeTruckFromDb_get_of_ne]
            · exact hget'
            · intro tid htid
              rw [alGet_alSet_self] at htid
              rw [(Option.some.inj htid).symm]
              exact fun hEq => hkne hEq.symm
          · rw [if_neg hnew]
            exact ⟨t, hget', harr, hone⟩
        · dsimp only
          rcases hget : alGet s.activeTrucks existingId with _ | existing
          · exact ⟨t, ht, harr, hone⟩
          · dsimp only
            by_cases hk : existingId = k
            · subst hk
              have hte : t = existing := by
                rw [ht] at hget
                exact Option.some.inj hget
              subst hte
              refine ⟨_, alGet_alSet_self .., ?_, ?_⟩
              · rw [hydratedTruckUpdate_status]
                exact harr
              · rw [hydratedTruckUpdate_progressRatio, hone]
                exact max_eq_left (tripProgressRatio_le_one _ _ _ _)
            · exact ⟨t, by rw [alGet_alSet_ne _ _ _ _ hk]; exact ht, harr, hone⟩

/-- Well-formedness only depends on the two maps. -/
theorem WF_of_eq {s s' : DeliveryState} (hA : s'.activeTrucks = s.activeTrucks)
    (hT : s'.tripToTruckId = s.tripToTruckId) (h : WF s) : WF s' := by
  refine ⟨?_, ?_, ?_, ?_, ?_, ?_⟩
  · rw [hA]
    exact h.le_one
  · rw [hA]
    exact h.arrived_one
  · rw [hA]
    exact h.ndTrucks
  · rw [hT]
    exact h.ndTrips
  · rw [hT]
    exact h.mapTrip
  · rw [hA, hT]
    exact h.trucksMapped

theorem ensureConfigForDb_activeTrucks (now : ℚ) (s : DeliveryState) :
    (ensureConfigForDb now s).activeTrucks = s.activeTrucks := by
  unfold ensureConfigForDb
  rcases s.config <;> rfl

theorem ensureConfigForDb_tripToTruckId (now : ℚ) (s : DeliveryState) :
    (ensureConfigForDb now s).tripToTruckId = s.tripToTruckId := by
  unfold ensureConfigForDb
  rcases s.config <;> rfl

theorem ensureConfigForDb_deliveryLog (now : ℚ) (s : DeliveryState) :
    (ensureConfigForDb now s).deliveryLog = s.deliveryLog := by
  unfold ensureConfigForDb
  rcases s.config <;> rfl

theorem ensureConfigForDb_WF (now : ℚ) (s : DeliveryState) (h : WF s) :
    WF (ensureConfigForDb now s) :=
  WF_of_eq (ensureConfigForDb_activeTrucks now s) (ensureConfigForDb_tripToTruckId now s) h

/-- Generic preservation of a state predicate along a left fold. -/
theorem foldl_preserve {β : Type} (f : DeliveryState → β → DeliveryState)
    (P : DeliveryState → Prop) (hf : ∀ st b, P st → P (f st b)) :
    ∀ (l : List β) (st : DeliveryState), P st → P (l.foldl f st) := by
  intro l
  induction l with
  | nil => exact fun st h => h
  | cons b rest ih => exact fun st h => ih _ (hf st b h)

/-- Generic progress-monotonicity along a left fold whose steps preserve
well-formedness and never lower or remove a present truck. -/
theorem foldl_mono {β : Type} (f : DeliveryState → β → DeliveryState)
    (hWFstep : ∀ st b, WF st → WF (f st b))
    (hmono : ∀ st b (k : String) t, WF st → alGet st.activeTrucks k = some t →
      ∃ t', alGet (f st b).activeTrucks k = some t' ∧
        t.progressRatio ≤ t'.progressRatio) :
    ∀ (l : List β) (st : DeliveryState) (k : String) (t : ConcreteTruck),
      WF st → alGet st.activeTrucks k = some t →
      ∃ t', alGet (l.foldl f st).activeTrucks k = some t' ∧
        t.progressRatio ≤ t'.progressRatio := by
  intro l
  induction l with
  | nil => exact fun st k t _ ht => ⟨t, ht, le_refl _⟩
  | cons b rest ih =>
      intro st k t hWF ht
      obtain ⟨t₁, ht₁, hle₁⟩ := hmono st b k t hWF ht
      obtain ⟨t₂, ht₂, hle₂⟩ := ih (f st b) k t₁ (hWFstep st b hWF) ht₁
      exact ⟨t₂, ht₂, le_trans hle₁ hle₂⟩

/-- Generic arrived-stability along a left fold. -/
theorem foldl_arrived {β : Type} (f : DeliveryState → β → DeliveryState)
    (hWFstep : ∀ st b, WF st → WF (f st b))
    (harr : ∀ st b (k : String) t, WF st → alGet st.activeTrucks k = some t →
      t.status = TruckStatus.arrived →
      ∃ t', alGet (f st b).activeTrucks k = some t' ∧
        t'.status = TruckStatus.arrived ∧ t'.progressRatio = 1) :
    ∀ (l : List β) (st : DeliveryState) (k : String) (t : ConcreteTruck),
      WF st → alGet st.activeTrucks k = some t → t.status = TruckStatus.arrived →
      ∃ t', alGet (l.foldl f st).activeTrucks k = some t' ∧
        t'.status = TruckStatus.arrived ∧ t'.progressRatio = 1 := by
  intro l
  induction l with
  | nil =>
      intro st k t hWF ht hst
      exact ⟨t, ht, hst, hWF.arrived_one (k, t) (mem_of_alGet_eq_some ht) hst⟩
  | cons b rest ih =>
      intro st k t hWF ht hst
      obtain ⟨t₁, ht₁, hst₁, _⟩ := harr st b k t hWF ht hst
      exact ih (f st b) k t₁ (hWFstep st b hWF) ht₁ hst₁

/-- `hydrateFromTrips` preserves well-formedness. -/
theorem hydrateFromTrips_WF (env : Env) (trips : List DbTrip) (sp now : ℚ)
    (s : DeliveryState) (hWF : WF s) :
    WF (hydrateFromTrips env trips sp now s) := by
  unfold hydrateFromTrips
  dsimp only
  have hWF1 := ensureConfigForDb_WF now s hWF
  rcases (ensureConfigForDb now s).config with _ | config
  · exact hWF1
  · dsimp only
    rcases basePath config with _ | base
    · exact hWF1
    · dsimp only
      by_cases hd : env.calcDist base.coordinates ≤ 0
      · rw [if_pos hd]
        exact hWF1
      · rw [if_neg hd]
        refine foldl_preserve _ WF ?_ trips _ hWF1
        intro st trip hst
        by_cases hip : trip.status = TripStatus.inProgress
        · rw [if_pos hip]
          exact addTruckFromTrip_WF env trip _ sp now st hst
        · rw [if_neg hip]
          exact hst

/-- `hydrateFromTrips` never lowers the progress ratio of a truck already in
the active map, and never removes it. -/
theorem hydrateFromTrips_mono (env : Env) (trips : List DbTrip) (sp now : ℚ)
    (s : DeliveryState) (hWF : WF s) (k : String) (t : ConcreteTruck)
    (ht : alGet s.activeTrucks k = some t) :
    ∃ t', alGet (hydrateFromTrips env trips sp now s).activeTrucks k = some t' ∧
      t.progressRatio ≤ t'.progressRatio := by
  unfold hydrateFromTrips
  have hWF1 := ensureConfigForDb_WF now s hWF
  have ht1 : alGet (ensureConfigForDb now s).activeTrucks k = some t := by
    rw [ensureConfigForDb_activeTrucks]
    exact ht
  dsimp only
  rcases (ensureConfigForDb now s).config with _ | config
  · exact ⟨t, ht1, le_refl _⟩
  · dsimp only
    rcases basePath config with _ | base
    · exact ⟨t, ht1, le_refl _⟩
    · dsimp only
      by_cases hd : env.calcDist base.coordinates ≤ 0
      · rw [if_pos hd]
        exact ⟨t, ht1, le_refl _⟩
      · rw [if_neg hd]
        refine foldl_mono _ ?_ ?_ trips _ k t hWF1 ht1
        · intro st trip hst
          by_cases hip : trip.status = TripStatus.inProgress
          · rw [if_pos hip]
            exact addTruckFromTrip_WF env trip _ sp now st hst
          · rw [if_neg hip]
            exact hst
        · intro st trip k' t' hst ht'
          by_cases hip : trip.status = TripStatus.inProgress
          · rw [if_pos hip]
            exact addTruckFromTrip_mono env trip _ sp now st hst k' t' ht'
          · rw [if_neg hip]
            exact ⟨t', ht', le_refl _⟩

theorem tickedTruck_progressRatio (env : Env) (config : DeliveryConfig)
    (geomInfo : GeomInfo) (dt now : ℚ) (truck : ConcreteTruck) :
    (tickedTruck env config geomInfo dt now truck).progressRatio =
      max truck.progressRatio
        (min (getPathAverageSpeed env truck.pathId config.defaultSpeed *
          (truck.elapsedSeconds + dt) / 3600 / truck.totalDistance) 1) := rfl

theorem tickedTruck_status (env : Env) (config : DeliveryConfig)
    (geomInfo : GeomInfo) (dt now : ℚ) (truck : ConcreteTruck) :
    (tickedTruck env config geomInfo dt now truck).status = truck.status := rfl

/-- Well-formedness of the intermediate state `tickTruck` builds before the
completion check. -/
theorem tickTruck_mid_WF (env : Env) (config : DeliveryConfig) (geomInfo : GeomInfo)
    (dt now : ℚ) (s : DeliveryState) (j : String) (truck : ConcreteTruck)
    (hWF : WF s) (hget : alGet s.activeTrucks j = some truck)
    (henr : truck.status = TruckStatus.enRoute) :
    WF { config := some config
         deliveryLog := s.deliveryLog
         nextTruckNumber := s.nextTruckNumber
         nextDispatchTime := s.nextDispatchTime
         isRunning := s.isRunning
         tripToTruckId := s.tripToTruckId
         activeTrucks := alSet s.activeTrucks j
           (tickedTruck env config geomInfo dt now truck) } := by
  refine ⟨?_, ?_, ?_, hWF.ndTrips, hWF.mapTrip, ?_⟩
  · intro p hp
    rcases mem_alSet hp with hp | hp
    · rw [hp]
      show (tickedTruck env config geomInfo dt now truck).progressRatio ≤ 1
      rw [tickedTruck_progressRatio]
      exact max_le (hWF.le_one (j, truck) (mem_of_alGet_eq_some hget))
        (min_le_right _ _)
    · exact hWF.le_one p hp
  · intro p hp harr
    rcases mem_alSet hp with hp | hp
    · rw [hp] at harr
      have harr' : (tickedTruck env config geomInfo dt now truck).status =
        TruckStatus.arrived := harr
      rw [tickedTruck_status, henr] at harr'
      exact TruckStatus.noConfusion harr'
    · exact hWF.arrived_one p hp harr
  · show (keys (alSet s.activeTrucks j _)).Nodup
    rw [keys_alSet_of_mem _ _ _ (mem_keys_of_alGet_eq_some hget)]
    exact hWF.ndTrucks
  · intro p hp
    rcases mem_alSet hp with hp | hp
    · obtain ⟨q, hq, hq2⟩ := hWF.trucksMapped (j, truck) (mem_of_alGet_eq_some hget)
      exact ⟨q, hq, by rw [hp]; exact hq2⟩
    · exact hWF.trucksMapped p hp

/-- `tickTruck` preserves well-formedness. -/
theorem tickTruck_WF (env : Env) (dt now : ℚ) (s : DeliveryState) (j : String)
    (hWF : WF s) : WF (tickTruck env dt now s j) := by
  unfold tickTruck
  rcases hcfg : s.config with _ | config
  · exact hWF
  · dsimp only
    rcases hget : alGet s.activeTrucks j with _ | truck
    · exact hWF
    · dsimp only
      by_cases hst : truck.status ≠ TruckStatus.enRoute
      · rw [if_pos hst]
        exact hWF
      · rw [if_neg hst]
        rcases hgeom : config.pathGeometries truck.pathId with _ | geomInfo
        · exact hWF
        · dsimp only
          by_cases hco : geomInfo.coordinates = []
          · rw [if_pos hco]
            exact hWF
          · rw [if_neg hco]
            have hWFs' := tickTruck_mid_WF env config geomInfo dt now s j truck hWF
              hget (not_not.mp hst)
            by_cases hdone :
                (tickedTruck env config geomInfo dt now truck).progressRatio ≥ 1
            · rw [if_pos hdone]
              exact completeTruck_WF _ _ _ hWFs'
            · rw [if_neg hdone]
              exact hWFs'

/-- `tickTruck` never lowers the progress ratio of a present truck, and never
removes it. -/
theorem tickTruck_mono (env : Env) (dt now : ℚ) (s : DeliveryState) (j : String)
    (hWF : WF s) (k : String) (t : ConcreteTruck)
    (ht : alGet s.activeTrucks k = some t) :
    ∃ t', alGet (tickTruck env dt now s j).activeTrucks k = some t' ∧
      t.progressRatio ≤ t'.progressRatio := by
  unfold tickTruck
  rcases hcfg : s.config with _ | config
  · exact ⟨t, ht, le_refl _⟩
  · dsimp only
    rcases hget : alGet s.activeTrucks j with _ | truck
    · exact ⟨t, ht, le_refl _⟩
    · dsimp only
      by_cases hst : truck.status ≠ TruckStatus.enRoute
      · rw [if_pos hst]
        exact ⟨t, ht, le_refl _⟩
      · rw [if_neg hst]
        rcases hgeom : config.pathGeometries truck.pathId with _ | geomInfo
        · exact ⟨t, ht, le_refl _⟩
        · dsimp only
          by_cases hco : geomInfo.coordinates = []
          · rw [if_pos hco]
            exact ⟨t, ht, le_refl _⟩
          · rw [if_neg hco]
            have hWFs' := tickTruck_mid_WF env config geomInfo dt now s j truck hWF
              hget (not_not.mp hst)
            have hmid : ∃ t₁, alGet (alSet s.activeTrucks j
                (tickedTruck env config geomInfo dt now truck)) k = some t₁ ∧
                t.progressRatio ≤ t₁.progressRatio := by
              by_cases hk : j = k
              · subst hk
                have hte : t = truck := by
                  rw [ht] at hget
                  exact Option.some.inj hget
                subst hte
                refine ⟨_, alGet_alSet_self .., ?_⟩
                rw [tickedTruck_progressRatio]
                exact le_max_left _ _
              · exact ⟨t, by rw [alGet_alSet_ne _ _ _ _ hk]; exact ht, le_refl _⟩
            obtain ⟨t₁, ht₁, hle₁⟩ := hmid
            by_cases hdone :
                (tickedTruck env config geomInfo dt now truck).progressRatio ≥ 1
            · rw [if_pos hdone]
              obtain ⟨t₂, ht₂, hle₂⟩ := completeTruck_mono j k now _ hWFs' t₁ ht₁
              exact ⟨t₂, ht₂, le_trans hle₁ hle₂⟩
            · rw [if_neg hdone]
              exact ⟨t₁, ht₁, hle₁⟩

/-- Once a truck in the map is arrived, `tickTruck` keeps it present, arrived
and at progress exactly 1. -/
theorem tickTruck_arrived_stable (env : Env) (dt now : ℚ) (s : DeliveryState)
    (j : String) (hWF : WF s) (k : String) (t : ConcreteTruck)
    (ht : alGet s.activeTrucks k = some t) (harr : t.status = TruckStatus.arrived) :
    ∃ t', alGet (tickTruck env dt now s j).activeTrucks k = some t' ∧
      t'.status = TruckStatus.arrived ∧ t'.progressRatio = 1 := by
  have hone := hWF.arrived_one (k, t) (mem_of_alGet_eq_some ht) harr
  unfold tickTruck
  rcases hcfg : s.config with _ | config
  · exact ⟨t, ht, harr, hone⟩
  · dsimp only
    rcases hget : alGet s.activeTrucks j with _ | truck
    · exact ⟨t, ht, harr, hone⟩
    · dsimp only
      by_cases hst : truck.status ≠ TruckStatus.enRoute
      · rw [if_pos hst]
        exact ⟨t, ht, harr, hone⟩
      · rw [if_neg hst]
        rcases hgeom : config.pathGeometries truck.pathId with _ | geomInfo
        · exact ⟨t, ht, harr, hone⟩
        · dsimp only
          by_cases hco : geomInfo.coordinates = []
          · rw [if_pos hco]
            exact ⟨t, ht, harr, hone⟩
          · rw [if_neg hco]
            have henr := not_not.mp hst
            have hWFs' := tickTruck_mid_WF env config geomInfo dt now s j truck hWF
              hget henr
            have hk : j ≠ k := by
              intro hEq
              subst hEq
              rw [ht] at hget
              rw [Option.some.inj hget, henr] at harr
              exact TruckStatus.noConfusion harr
            have hmid : alGet (alSet s.activeTrucks j
                (tickedTruck env config geomInfo dt now truck)) k = some t := by
              rw [alGet_alSet_ne _ _ _ _ hk]
              exact ht
            by_cases hdone :
                (tickedTruck env config geomInfo dt now truck).progressRatio ≥ 1
            · rw [if_pos hdone]
              exact completeTruck_arrived_stable j k now _ hWFs' t hmid harr
            · rw [if_neg hdone]
              exact ⟨t, hmid, harr, hone⟩

theorem auto_dispatch_disabled (now t : ℚ) : ¬ (now ≥ t ∧ AUTO_DISPATCH_ENABLED) := by
  intro h
  simp [AUTO_DISPATCH_ENABLED] at h

/-- `tickDelivery` preserves well-formedness. -/
theorem tickDelivery_WF (env : Env) (dt now : ℚ) (s : DeliveryState)
    (hWF : WF s) : WF (tickDelivery env dt now s) := by
  unfold tickDelivery
  rcases hcfg : s.config with _ | config
  · exact hWF
  · dsimp only
    by_cases hrun : ¬ s.isRunning
    · rw [if_pos hrun]
      exact hWF
    · rw [if_neg hrun]
      rcases hnd : s.nextDispatchTime with _ | tnd
      · exact foldl_preserve _ WF (fun st b h => tickTruck_WF env dt now st b h) _ _ hWF
      · dsimp only
        rw [if_neg (auto_dispatch_disabled now tnd)]
        exact foldl_preserve _ WF (fun st b h => tickTruck_WF env dt now st b h) _ _ hWF

/-- `tickDelivery` never lowers the progress ratio of a present truck, and
never removes it. -/
theorem tickDelivery_mono (env : Env) (dt now : ℚ) (s : DeliveryState)
    (hWF : WF s) (k : String) (t : ConcreteTruck)
    (ht : alGet s.activeTrucks k = some t) :
    ∃ t', alGet (tickDelivery env dt now s).activeTrucks k = some t' ∧
      t.progressRatio ≤ t'.progressRatio := by
  unfold tickDelivery
  rcases hcfg : s.config with _ | config
  · exact ⟨t, ht, le_refl _⟩
  · dsimp only
    by_cases hrun : ¬ s.isRunning
    · rw [if_pos hrun]
      exact ⟨t, ht, le_refl _⟩
    · rw [if_neg hrun]
      rcases hnd : s.nextDispatchTime with _ | tnd
      · exact foldl_mono _ (fun st b h => tickTruck_WF env dt now st b h)
          (fun st b k' t' h ht' => tickTruck_mono env dt now st b h k' t' ht')
          _ _ k t hWF ht
      · dsimp only
        rw [if_neg (auto_dispatch_disabled now tnd)]
        exact foldl_mono _ (fun st b h => tickTruck_WF env dt now st b h)
          (fun st b k' t' h ht' => tickTruck_mono env dt now st b h k' t' ht')
          _ _ k t hWF ht

/-- Once a truck in the map is arrived, `tickDelivery` keeps it present,
arrived and at progress exactly 1. -/
theorem tickDelivery_arrived_stable (env : Env) (dt now : ℚ) (s : DeliveryState)
    (hWF : WF s) (k : String) (t : ConcreteTruck)
    (ht : alGet s.activeTrucks k = some t) (harr : t.status = TruckStatus.arrived) :
    ∃ t', alGet (tickDelivery env dt now s).activeTrucks k = some t' ∧
      t'.status = TruckStatus.arrived ∧ t'.progressRatio = 1 := by
  have hone := hWF.arrived_one (k, t) (mem_of_alGet_eq_some ht) harr
  unfold tickDelivery
  rcases hcfg : s.config with _ | config
  · exact ⟨t, ht, harr, hone⟩
  · dsimp only
    by_cases hrun : ¬ s.isRunning
    · rw [if_pos hrun]
      exact ⟨t, ht, harr, hone⟩
    · rw [if_neg hrun]
      rcases hnd : s.nextDispatchTime with _ | tnd
      · exact foldl_arrived _ (fun st b h => tickTruck_WF env dt now st b h)
          (fun st b k' t' h ht' harr' =>
            tickTruck_arrived_stable env dt now st b h k' t' ht' harr')
          _ _ k t hWF ht harr
      · dsimp only
        rw [if_neg (auto_dispatch_disabled now tnd)]
        exact foldl_arrived _ (fun st b h => tickTruck_WF env dt now st b h)
          (fun st b k' t' h ht' harr' =>
            tickTruck_arrived_stable env dt now st b h k' t' ht' harr')
          _ _ k t hWF ht harr

theorem alGet_alDelete_self_of_nodup {α : Type} {l : List (String × α)} {k : String}
    (hnd : (keys l).Nodup) : alGet (alDelete l k) k = none :=
  alGet_eq_none_of_not_mem_keys (not_mem_keys_alDelete_self hnd)

/-- `completeTruckFromDb` either removes the truck it archives, or leaves an
arrived truck present, arrived, at progress exactly 1. -/
theorem completeTruckFromDb_arrived (tripId : String) (tArr : ℚ) (s : DeliveryState)
    (hWF : WF s) (k : String) (t : ConcreteTruck)
    (ht : alGet s.activeTrucks k = some t) (harr : t.status = TruckStatus.arrived) :
    alGet (completeTruckFromDb tripId tArr s).activeTrucks k = none ∨
    ∃ t', alGet (completeTruckFromDb tripId tArr s).activeTrucks k = some t' ∧
      t'.status = TruckStatus.arrived ∧ t'.progressRatio = 1 := by
  have hone := hWF.arrived_one (k, t) (mem_of_alGet_eq_some ht) harr
  unfold completeTruckFromDb
  rcases hmap : alGet s.tripToTruckId tripId with _ | truckId
  · exact Or.inr ⟨t, ht, harr, hone⟩
  · dsimp only
    rcases hget : alGet s.activeTrucks truckId with _ | truck
    · rcases s.config with _ | config <;> exact Or.inr ⟨t, ht, harr, hone⟩
    · rcases hcfg : s.config with _ | config
      · exact Or.inr ⟨t, ht, harr, hone⟩
      · by_cases hk : truckId = k
        · subst hk
          exact Or.inl (alGet_alDelete_self_of_nodup hWF.ndTrucks)
        · exact Or.inr ⟨t, by rw [alGet_alDelete_ne _ _ _ hk]; exact ht, harr, hone⟩

/-! ## Sequence-level invariants (claims C1 and C2) -/

/-- The operations named by claim C1: `tickDelivery` and
`hydrateFromTrips`/`addTruckFromTrip`. -/
def C1Op : SimOp → Prop
  | SimOp.tick _ _ => True
  | SimOp.addTrip _ _ _ _ => True
  | SimOp.hydrate _ _ _ => True
  | _ => False

/-- The operations named by claim C2: `tickDelivery`, `completeTruck`,
`addTruckFromTrip` and `completeTruckFromDb`. -/
def C2Op : SimOp → Prop
  | SimOp.tick _ _ => True
  | SimOp.complete _ _ => True
  | SimOp.addTrip _ _ _ _ => True
  | SimOp.completeDb _ _ => True
  | _ => False

/-- Every engine call preserves well-formedness. -/
theorem applySimOp_WF (env : Env) (s : DeliveryState) (op : SimOp) (hWF : WF s) :
    WF (applySimOp env s op) := by
  cases op with
  | tick dt now => exact tickDelivery_WF env dt now s hWF
  | complete truckId now => exact completeTruck_WF truckId now s hWF
  | addTrip trip d sp now => exact addTruckFromTrip_WF env trip d sp now s hWF
  | completeDb tripId t => exact completeTruckFromDb_WF tripId t s hWF
  | hydrate trips sp now => exact hydrateFromTrips_WF env trips sp now s hWF

/-- Every sequence of engine calls preserves well-formedness. -/
theorem applySimOps_WF (env : Env) (ops : List SimOp) (s : DeliveryState)
    (hWF : WF s) : WF (applySimOps env s ops) := by
  induction ops generalizing s with
  | nil => exact hWF
  | cons op rest ih => exact ih (applySimOp env s op) (applySimOp_WF env s op hWF)

theorem applySimOp_mono (env : Env) (s : DeliveryState) (op : SimOp)
    (hop : C1Op op) (hWF : WF s) (k : String) (t : ConcreteTruck)
    (ht : alGet s.activeTrucks k = some t) :
    ∃ t', alGet (applySimOp env s op).activeTrucks k = some t' ∧
      t.progressRatio ≤ t'.progressRatio := by
  cases op with
  | tick dt now => exact tickDelivery_mono env dt now s hWF k t ht
  | addTrip trip d sp now => exact addTruckFromTrip_mono env trip d sp now s hWF k t ht
  | hydrate trips sp now => exact hydrateFromTrips_mono env trips sp now s hWF k t ht
  | complete truckId now => cases hop
  | completeDb tripId tArr => cases hop

theorem applySimOp_arrived (env : Env) (s : DeliveryState) (op : SimOp)
    (hop : C2Op op) (hWF : WF s) (k : String) (t : ConcreteTruck)
    (ht : alGet s.activeTrucks k = some t) (harr : t.status = TruckStatus.arrived) :
    alGet (applySimOp env s op).activeTrucks k = none ∨
    ∃ t', alGet (applySimOp env s op).activeTrucks k = some t' ∧
      t'.status = TruckStatus.arrived ∧ t'.progressRatio = 1 := by
  cases op with
  | tick dt now => exact Or.inr (tickDelivery_arrived_stable env dt now s hWF k t ht harr)
  | complete truckId now =>
      exact Or.inr (completeTruck_arrived_stable truckId k now s hWF t ht harr)
  | addTrip trip d sp now =>
      exact Or.inr (addTruckFromTrip_arrived_stable env trip d sp now s hWF k t ht harr)
  | completeDb tripId tArr =>
      exact completeTruckFromDb_arrived tripId tArr s hWF k t ht harr
  | hydrate trips sp now => cases hop

/-- **C1.** For every truck in the active map, progressRatio never decreases
across any sequence of `tickDelivery` and `hydrateFromTrips`/`addTruckFromTrip`
calls: `tickDelivery` sets it to the max of the existing value and the newly
computed ratio, and hydration of an already-tracked trip sets it to the max
of the existing and newly derived ratio. Stated over well-formed states: a
truck present before the sequence is still present afterwards with a
progress ratio at least its old one. -/
theorem c1_progressRatio_nondecreasing (env : Env) (ops : List SimOp)
    (s : DeliveryState) (hWF : WF s) (hops : ∀ op ∈ ops, C1Op op)
    (k : String) (t : ConcreteTruck) (ht : alGet s.activeTrucks k = some t) :
    ∃ t', alGet (applySimOps env s ops).activeTrucks k = some t' ∧
      t.progressRatio ≤ t'.progressRatio := by
  induction ops generalizing s t with
  | nil => exact ⟨t, ht, le_refl _⟩
  | cons op rest ih =>
      obtain ⟨t₁, ht₁, hle₁⟩ := applySimOp_mono env s op
        (hops op (List.mem_cons_self _ _)) hWF k t ht
      obtain ⟨t₂, ht₂, hle₂⟩ := ih (applySimOp env s op)
        (applySimOp_WF env s op hWF)
        (fun o ho => hops o (List.mem_cons_of_mem _ ho)) t₁ ht₁
      exact ⟨t₂, ht₂, le_trans hle₁ hle₂⟩

/-- **C2.** The status transition en-route → arrived happens at most once and
is irreversible, and once a truck's status is arrived its progressRatio is
and stays exactly 1, across any sequence of `tickDelivery`, `completeTruck`,
`addTruckFromTrip` and `completeTruckFromDb` calls: for a truck that remains
in the active map along the sequence (`completeTruckFromDb` archives and
removes the truck it targets, ending its lifecycle), once arrived it stays
arrived with progress ratio exactly 1, so it can never transition back to
en-route. -/
theorem c2_arrived_terminal (env : Env) (ops : List SimOp) (s : DeliveryState)
    (hWF : WF s) (hops : ∀ op ∈ ops, C2Op op) (k : String) (t : ConcreteTruck)
    (ht : alGet s.activeTrucks k = some t) (harr : t.status = TruckStatus.arrived)
    (hpres : ∀ i, i ≤ ops.length →
      alHas (applySimOps env s (ops.take i)).activeTrucks k = true) :
    ∃ t', alGet (applySimOps env s ops).activeTrucks k = some t' ∧
      t'.status = TruckStatus.arrived ∧ t'.progressRatio = 1 := by
  induction ops generalizing s t with
  | nil =>
      exact ⟨t, ht, harr, hWF.arrived_one (k, t) (mem_of_alGet_eq_some ht) harr⟩
  | cons op rest ih =>
      rcases applySimOp_arrived env s op (hops op (List.mem_cons_self _ _))
          hWF k t ht harr with hnone | ⟨t₁, ht₁, harr₁, _⟩
      · exfalso
        have hp := hpres 1 (Nat.succ_le_succ (Nat.zero_le _))
        simp only [List.take_succ_cons, List.take_zero, applySimOps,
          List.foldl_cons, List.foldl_nil, alHas] at hp
        rw [hnone] at hp
        exact Bool.noConfusion hp
      · refine ih (applySimOp env s op) (applySimOp_WF env s op hWF)
          (fun o ho => hops o (List.mem_cons_of_mem _ ho)) t₁ ht₁ harr₁ ?_
        intro i hi
        have hp := hpres (i + 1) (Nat.succ_le_succ hi)
        simpa only [List.take_succ_cons, applySimOps, List.foldl_cons] using hp

/-! ## Concrete witness environment and states -/

/-- A minimal environment for witnesses: empty traffic cache and corridor
store, no project-path corridors, constant distance 10 km, no interpolation
result. -/
def wEnv : Env where
  corridors := fun _ => none
  allCorridors := fun _ => none
  projectPaths := fun _ => []
  calcDist := fun _ => 10
  calcDistGeom := fun _ => 0
  interp := fun _ _ => none

/-- Witness session config (no path geometries). -/
def wConfig : DeliveryConfig where
  routeId := 0
  targetVolume := 8
  volumePerTruck := 8
  trucksPerHour := 1
  startTime := 0
  defaultSpeed := 40
  pathGeometries := fun _ => none

/-- A DB-backed truck en route at progress 0. -/
def wTruckEnRoute : ConcreteTruck where
  truckId := "TRIP-a"
  truckNumber := 1
  routeId := 0
  pathId := PathId.GAMMON_TM
  status := TruckStatus.enRoute
  currentPosition := none
  progressRatio := 0
  departureTime := 0
  arrivalTime := none
  estimatedArrival := 0
  elapsedSeconds := 0
  totalDistance := 10
  currentSpeed := 40
  concreteVolume := 8

/-- A DB-backed truck that has arrived (progress 1). -/
def wTruckArrived : ConcreteTruck where
  truckId := "TRIP-a"
  truckNumber := 1
  routeId := 0
  pathId := PathId.GAMMON_TM
  status := TruckStatus.arrived
  currentPosition := none
  progressRatio := 1
  departureTime := 0
  arrivalTime := some 0
  estimatedArrival := 0
  elapsedSeconds := 0
  totalDistance := 10
  currentSpeed := 40
  concreteVolume := 8

/-- Witness state with one en-route DB truck. -/
def wState1 : DeliveryState where
  config := some wConfig
  activeTrucks := [("TRIP-a", wTruckEnRoute)]
  deliveryLog := []
  nextTruckNumber := 2
  nextDispatchTime := none
  isRunning := true
  tripToTruckId := [("a", "TRIP-a")]

/-- Witness state with one arrived DB truck. -/
def wState2 : DeliveryState where
  config := some wConfig
  activeTrucks := [("TRIP-a", wTruckArrived)]
  deliveryLog := []
  nextTruckNumber := 2
  nextDispatchTime := none
  isRunning := true
  tripToTruckId := [("a", "TRIP-a")]

theorem wState1_WF : WF wState1 :=
  ⟨by decide, by decide, by decide, by decide, by decide, by decide⟩

theorem wState2_WF : WF wState2 :=
  ⟨by decide, by decide, by decide, by decide, by decide, by decide⟩

/-- Witness for C1: a tick followed by a hydration call never lowers the
tracked truck's progress ratio. -/
theorem c1_witness :
    ∃ t', alGet (applySimOps wEnv wState1
        [SimOp.tick 1 0, SimOp.hydrate [] 40 0]).activeTrucks "TRIP-a" = some t' ∧
      wTruckEnRoute.progressRatio ≤ t'.progressRatio :=
  c1_progressRatio_nondecreasing wEnv [SimOp.tick 1 0, SimOp.hydrate [] 40 0]
    wState1 wState1_WF
    (by intro op hop
        rcases List.mem_cons.mp hop with h | hop
        · rw [h]; trivial
        · rcases List.mem_singleton.mp hop with h
          rw [h]; trivial)
    "TRIP-a" wTruckEnRoute (by decide)

/-- Witness for C2: a completion call followed by a tick leaves the arrived
truck arrived with progress exactly 1. -/
theorem c2_witness :
    ∃ t', alGet (applySimOps wEnv wState2
        [SimOp.complete "TRIP-a" 0, SimOp.tick 1 0]).activeTrucks "TRIP-a" = some t' ∧
      t'.status = TruckStatus.arrived ∧ t'.progressRatio = 1 :=
  c2_arrived_terminal wEnv [SimOp.complete "TRIP-a" 0, SimOp.tick 1 0]
    wState2 wState2_WF
    (by intro op hop
        rcases List.mem_cons.mp hop with h | hop
        · rw [h]; trivial
        · rcases List.mem_singleton.mp hop with h
          rw [h]; trivial)
    "TRIP-a" wTruckArrived (by decide) (by decide)
    (by decide)

/-! ## Delivery-log cumulative-volume invariant (claim C3) -/

/-- Every log entry's cumulative volume equals the sum of concrete volumes
over the entries up to and including it. -/
def CumOK (log : List DeliveryRecord) : Prop :=
  ∀ i (h : i < log.length), (log.get ⟨i, h⟩).cumulativeVolume = sumVol (log.take (i + 1))

theorem sumVol_append (l₁ l₂ : List DeliveryRecord) :
    sumVol (l₁ ++ l₂) = sumVol l₁ + sumVol l₂ := by
  simp [sumVol]

theorem cumOK_append (log : List DeliveryRecord) (rec : DeliveryRecord)
    (h : CumOK log) (hrec : rec.cumulativeVolume = sumVol log + rec.concreteVolume) :
    CumOK (log ++ [rec]) := by
  intro i hi
  by_cases hlt : i < log.length
  · have hget : (log ++ [rec]).get ⟨i, hi⟩ = log.get ⟨i, hlt⟩ := by
      rw [List.get_append i hlt]
    have htake : (log ++ [rec]).take (i + 1) = log.take (i + 1) :=
      List.take_append_of_le_length (Nat.succ_le_of_lt hlt)
    rw [hget, htake]
    exact h i hlt
  · have hlen : i = log.length := by
      rw [List.length_append, List.length_singleton] at hi
      omega
    subst hlen
    have hget : (log ++ [rec]).get ⟨log.length, hi⟩ = rec := by
      rw [List.get_append_right _ _ (by omega)] <;> simp
    have htake : (log ++ [rec]).take (log.length + 1) = log ++ [rec] := by
      apply List.take_of_length_le
      rw [List.length_append, List.length_singleton]
    rw [hget, htake, sumVol_append, hrec]
    simp [sumVol]

/-- The combined C3 state invariant: correct cumulatives plus positive
per-truck and per-record volumes. -/
structure C3Inv (s : DeliveryState) : Prop where
  cum : CumOK s.deliveryLog
  posT : ∀ p ∈ s.activeTrucks, 0 < p.2.concreteVolume
  posL : ∀ r ∈ s.deliveryLog, 0 < r.concreteVolume

theorem completeTruck_C3Inv (truckId : String) (now : ℚ) (s : DeliveryState)
    (h : C3Inv s) : C3Inv (completeTruck truckId now s) := by
  unfold completeTruck
  rcases hget : alGet s.activeTrucks truckId with _ | truck
  · rcases s.config with _ | config <;> exact h
  · rcases hcfg : s.config with _ | config
    · exact h
    · have hvol : 0 < truck.concreteVolume :=
        h.posT (truckId, truck) (mem_of_alGet_eq_some hget)
      refine ⟨?_, ?_, ?_⟩
      · exact cumOK_append _ _ h.cum rfl
      · intro p hp
        rcases mem_alSet hp with hp | hp
        · rw [hp]
          exact hvol
        · exact h.posT p hp
      · intro r hr
        rcases List.mem_append.mp hr with hr | hr
        · exact h.posL r hr
        · rw [List.mem_singleton.mp hr]
          exact hvol

theorem completeTruckFromDb_C3Inv (tripId : String) (tArr : ℚ) (s : DeliveryState)
    (h : C3Inv s) : C3Inv (completeTruckFromDb tripId tArr s) := by
  unfold completeTruckFromDb
  rcases hmap : alGet s.tripToTruckId tripId with _ | truckId
  · exact h
  · dsimp only
    rcases hget : alGet s.activeTrucks truckId with _ | truck
    · rcases s.config with _ | config <;> exact h
    · rcases hcfg : s.config with _ | config
      · exact h
      · have hvol : 0 < truck.concreteVolume :=
          h.posT (truckId, truck) (mem_of_alGet_eq_some hget)
        refine ⟨?_, ?_, ?_⟩
        · exact cumOK_append _ _ h.cum rfl
        · intro p hp
          exact h.posT p (mem_of_mem_alDelete hp)
        · intro r hr
          rcases List.mem_append.mp hr with hr | hr
          · exact h.posL r hr
          · rw [List.mem_singleton.mp hr]
            exact hvol

/-- The operations named by claim C3: the two completion/append paths. -/
def C3Op : SimOp → Prop
  | SimOp.complete _ _ => True
  | SimOp.completeDb _ _ => True
  | _ => False

theorem applySimOp_C3Inv (env : Env) (s : DeliveryState) (op : SimOp)
    (hop : C3Op op) (h : C3Inv s) : C3Inv (applySimOp env s op) := by
  cases op with
  | complete truckId now => exact completeTruck_C3Inv truckId now s h
  | completeDb tripId t => exact completeTruckFromDb_C3Inv tripId t s h
  | tick dt now => cases hop
  | addTrip trip d sp now => cases hop
  | hydrate trips sp now => cases hop

theorem sumVol_take_mono (log : List DeliveryRecord)
    (hpos : ∀ r ∈ log, 0 < r.concreteVolume) {m n : ℕ} (hmn : m ≤ n) :
    sumVol (log.take m) ≤ sumVol (log.take n) := by
  have hsplit : log.take n = log.take m ++ (log.take n).drop m := by
    conv_lhs => rw [← List.take_append_drop m (log.take n)]
    rw [List.take_take, min_eq_left hmn]
  rw [hsplit, sumVol_append]
  have hnn : 0 ≤ sumVol ((log.take n).drop m) := by
    apply List.sum_nonneg
    intro x hx
    simp only [List.mem_map] at hx
    obtain ⟨r, hr, hrx⟩ := hx
    have : r ∈ log := List.mem_of_mem_take (List.mem_of_mem_drop hr)
    rw [← hrx]
    exact le_of_lt (hpos r this)
  linarith

theorem cum_monotone (log : List DeliveryRecord) (hcum : CumOK log)
    (hpos : ∀ r ∈ log, 0 < r.concreteVolume) :
    ∀ i j (hij : i ≤ j) (hj : j < log.length),
      (log.get ⟨i, lt_of_le_of_lt hij hj⟩).cumulativeVolume ≤
        (log.get ⟨j, hj⟩).cumulativeVolume := by
  intro i j hij hj
  rw [hcum i (lt_of_le_of_lt hij hj), hcum j hj]
  exact sumVol_take_mono log hpos (Nat.succ_le_succ hij)

/-- **C3.** In the delivery log, for every entry i, cumulativeVolume equals
the sum of concreteVolume over entries 0..i inclusive, and (given positive
per-truck volumes) cumulativeVolume is non-decreasing along the log, after
any sequence of `completeTruck` and `completeTruckFromDb` appends. -/
theorem c3_cumulativeVolume (env : Env) (ops : List SimOp) (s : DeliveryState)
    (hops : ∀ op ∈ ops, C3Op op) (hcum : CumOK s.deliveryLog)
    (hposT : ∀ p ∈ s.activeTrucks, 0 < p.2.concreteVolume)
    (hposL : ∀ r ∈ s.deliveryLog, 0 < r.concreteVolume) :
    CumOK (applySimOps env s ops).deliveryLog ∧
    ∀ i j (hij : i ≤ j) (hj : j < (applySimOps env s ops).deliveryLog.length),
      ((applySimOps env s ops).deliveryLog.get
        ⟨i, lt_of_le_of_lt hij hj⟩).cumulativeVolume ≤
      ((applySimOps env s ops).deliveryLog.get ⟨j, hj⟩).cumulativeVolume := by
  have hinv : C3Inv (applySimOps env s ops) := by
    induction ops generalizing s with
    | nil => exact ⟨hcum, hposT, hposL⟩
    | cons op rest ih =>
        have h1 : C3Inv (applySimOp env s op) :=
          applySimOp_C3Inv env s op (hops op (List.mem_cons_self _ _))
            ⟨hcum, hposT, hposL⟩
        exact ih (applySimOp env s op) (fun o ho => hops o (List.mem_cons_of_mem _ ho))
          h1.cum h1.posT h1.posL
  exact ⟨hinv.cum, cum_monotone _ hinv.cum hinv.posL⟩

/-- Witness for C3 on a concrete run: archiving the arrived DB truck and then
completing it synthetically keeps the log invariant and monotone. -/
theorem c3_witness :
    CumOK (applySimOps wEnv wState2
      [SimOp.completeDb "a" 0, SimOp.complete "TRIP-a" 0]).deliveryLog ∧
    ∀ i j (hij : i ≤ j) (hj : j < (applySimOps wEnv wState2
        [SimOp.completeDb "a" 0, SimOp.complete "TRIP-a" 0]).deliveryLog.length),
      ((applySimOps wEnv wState2
        [SimOp.completeDb "a" 0, SimOp.complete "TRIP-a" 0]).deliveryLog.get
          ⟨i, lt_of_le_of_lt hij hj⟩).cumulativeVolume ≤
      ((applySimOps wEnv wState2
        [SimOp.completeDb "a" 0, SimOp.complete "TRIP-a" 0]).deliveryLog.get
          ⟨j, hj⟩).cumulativeVolume :=
  c3_cumulativeVolume wEnv [SimOp.completeDb "a" 0, SimOp.complete "TRIP-a" 0]
    wState2
    (by intro op hop
        rcases List.mem_cons.mp hop with h | hop
        · rw [h]; trivial
        · rcases List.mem_singleton.mp hop with h
          rw [h]; trivial)
    (fun i h => absurd h (Nat.not_lt_zero i))
    (by decide) (by decide)

/-! ## Hour windows (claim C4) -/

/-- Config whose session start (3600000 ms) lies after the arrival used in
the C4 counterexample. -/
def wConfigLate : DeliveryConfig where
  routeId := 0
  targetVolume := 8
  volumePerTruck := 8
  trucksPerHour := 1
  startTime := 3600000
  defaultSpeed := 40
  pathGeometries := fun _ => none

/-- State with one truck and the late-starting session config. -/
def wStateLate : DeliveryState where
  config := some wConfigLate
  activeTrucks := [("TRIP-a", wTruckArrived)]
  deliveryLog := []
  nextTruckNumber := 2
  nextDispatchTime := none
  isRunning := true
  tripToTruckId := [("a", "TRIP-a")]

/-- **C4 (counterexample).** The claim says every appended record has
`hourWindow = floor((arrivalTime − startTime)/1h)` and that this value is
always ≥ 0 for every arrival and start time. With session start at
3600000 ms and a `completeTruck` arrival at time 0, the appended record's
hour window is −1 < 0: `completeTruck` does not clamp. -/
theorem c4_counterexample :
    ((completeTruck "TRIP-a" 0 wStateLate).deliveryLog.map
      (fun r => r.hourWindow)) = [-1] ∧ (-1 : Int) < 0 := by
  constructor
  · have harith : ⌊((0 : ℚ) - 3600000) / 3600000⌋ = -1 := by
      rw [show ((0 : ℚ) - 3600000) / 3600000 = ((-1 : Int) : ℚ) by norm_num]
      exact Int.floor_intCast _
    simp only [completeTruck, wStateLate, wConfigLate, wTruckArrived, alGet,
      eq_self_iff_true, if_true, sumVol, List.map_nil, List.sum_nil,
      List.nil_append, List.map_cons, harith]
  · decide

/-- **C4 (amended).** `completeTruck` appends a record with the unclamped
`hourWindow = ⌊(now − startTime)/3600000⌋` (negative when the arrival
precedes the session start, and ≥ 0 whenever `startTime ≤ now`), while
`completeTruckFromDb` appends `hourWindow = max 0 ⌊(arrival −
startTime)/3600000⌋`, which is always ≥ 0 and equals the unclamped floor
whenever `startTime ≤ arrival`. -/
theorem c4_hourWindow_amended :
    (∀ (truckId : String) (now : ℚ) (s : DeliveryState) (truck : ConcreteTruck)
      (config : DeliveryConfig),
      alGet s.activeTrucks truckId = some truck → s.config = some config →
      ∃ rec, (completeTruck truckId now s).deliveryLog = s.deliveryLog ++ [rec] ∧
        rec.hourWindow = ⌊(now - config.startTime) / 3600000⌋ ∧
        (config.startTime ≤ now → 0 ≤ rec.hourWindow)) ∧
    (∀ (tripId : String) (tArr : ℚ) (s : DeliveryState) (truckId : String)
      (truck : ConcreteTruck) (config : DeliveryConfig),
      alGet s.tripToTruckId tripId = some truckId →
      alGet s.activeTrucks truckId = some truck → s.config = some config →
      ∃ rec, (completeTruckFromDb tripId tArr s).deliveryLog =
          s.deliveryLog ++ [rec] ∧
        rec.hourWindow = max 0 ⌊(tArr - config.startTime) / 3600000⌋ ∧
        0 ≤ rec.hourWindow ∧
        (config.startTime ≤ tArr →
          rec.hourWindow = ⌊(tArr - config.startTime) / 3600000⌋)) := by
  constructor
  · intro truckId now s truck config hget hcfg
    unfold completeTruck
    rw [hget, hcfg]
    refine ⟨_, rfl, rfl, ?_⟩
    intro hle
    apply Int.floor_nonneg.mpr
    apply div_nonneg (by linarith) (by norm_num)
  · intro tripId tArr s truckId truck config hmap hget hcfg
    unfold completeTruckFromDb
    rw [hmap]
    dsimp only
    rw [hget, hcfg]
    refine ⟨_, rfl, rfl, le_max_left _ _, ?_⟩
    intro hle
    apply max_eq_right
    apply Int.floor_nonneg.mpr
    apply div_nonneg (by linarith) (by norm_num)

/-- Witness for the amended C4 on a concrete run: both completion paths at
arrival time 0 with session start 0 give hour window 0. -/
theorem c4_witness :
    (∃ rec, (completeTruck "TRIP-a" 0 wState2).deliveryLog =
        wState2.deliveryLog ++ [rec] ∧
      rec.hourWindow = ⌊((0 : ℚ) - wConfig.startTime) / 3600000⌋ ∧
      (wConfig.startTime ≤ 0 → 0 ≤ rec.hourWindow)) ∧
    (∃ rec, (completeTruckFromDb "a" 0 wState2).deliveryLog =
        wState2.deliveryLog ++ [rec] ∧
      rec.hourWindow = max 0 ⌊((0 : ℚ) - wConfig.startTime) / 3600000⌋ ∧
      0 ≤ rec.hourWindow ∧
      (wConfig.startTime ≤ 0 →
        rec.hourWindow = ⌊((0 : ℚ) - wConfig.startTime) / 3600000⌋)) :=
  ⟨c4_hourWindow_amended.1 "TRIP-a" 0 wState2 wTruckArrived wConfig
      (by decide) rfl,
   c4_hourWindow_amended.2 "a" 0 wState2 "TRIP-a" wTruckArrived wConfig
      (by decide) (by decide) rfl⟩

/-! ## Hydration shapes (claim C5) -/

theorem ensureConfigForDb_of_some (now : ℚ) {s : DeliveryState}
    {cfg : DeliveryConfig} (h : s.config = some cfg) :
    ensureConfigForDb now s = s := by
  unfold ensureConfigForDb
  rw [h]

/-- A trip whose id is mapped to a truck that is no longer in the active map
is skipped: nothing is created or changed. -/
theorem addTruckFromTrip_skip (env : Env) (trip : DbTrip) (d sp now : ℚ)
    (s : DeliveryState) (tid : String)
    (hmap : alGet s.tripToTruckId trip.id = some tid)
    (hget : alGet s.activeTrucks tid = none) :
    (addTruckFromTrip env trip d sp now s).2 = s := by
  unfold addTruckFromTrip
  rcases hcfg : s.config with _ | config
  · rfl
  · dsimp only
    rcases hbase : basePath config with _ | base
    · rfl
    · dsimp only
      rcases hstart : trip.actual_start_at with _ | t₀
      · rfl
      · dsimp only
        rw [hmap]
        dsimp only
        rw [hget]

/-- Shape of the update branch: an already-tracked trip with a live truck
gets the in-place `hydratedTruckUpdate`; nothing else changes. -/
theorem addTruckFromTrip_update_shape (env : Env) (trip : DbTrip) (d sp now : ℚ)
    (s : DeliveryState) (cfg : DeliveryConfig) (base : GeomInfo) (t₀ : ℚ)
    (eid : String) (existing : ConcreteTruck)
    (hcfg : s.config = some cfg) (hbase : basePath cfg = some base)
    (hstart : trip.actual_start_at = some t₀)
    (hmap : alGet s.tripToTruckId trip.id = some eid)
    (hget : alGet s.activeTrucks eid = some existing) :
    (addTruckFromTrip env trip d sp now s).2 = {
      config := some cfg
      activeTrucks := alSet s.activeTrucks eid
        (hydratedTruckUpdate env base (tripProgressRatio t₀ d sp now) existing)
      deliveryLog := s.deliveryLog
      nextTruckNumber := s.nextTruckNumber
      nextDispatchTime := s.nextDispatchTime
      isRunning := s.isRunning
      tripToTruckId := s.tripToTruckId } := by
  unfold addTruckFromTrip
  rw [hcfg]
  dsimp only
  rw [hbase]
  dsimp only
  rw [hstart]
  dsimp only
  rw [hmap]
  dsimp only
  rw [hget]

/-- Shape of the creation branch for a still-running trip (derived ratio
below 1): a fresh truck under the `TRIP-` key, a fresh mapping entry and the
pre-incremented truck number. -/
theorem addTruckFromTrip_create_shape (env : Env) (trip : DbTrip) (d sp now : ℚ)
    (s : DeliveryState) (cfg : DeliveryConfig) (base : GeomInfo) (t₀ : ℚ)
    (hcfg : s.config = some cfg) (hbase : basePath cfg = some base)
    (hstart : trip.actual_start_at = some t₀)
    (hmap : alGet s.tripToTruckId trip.id = none)
    (hlt : tripProgressRatio t₀ d sp now < 1) :
    (addTruckFromTrip env trip d sp now s).2 = {
      config := some cfg
      activeTrucks := alSet s.activeTrucks ("TRIP-" ++ trip.id)
        (newTripTruck env cfg base trip s.nextTruckNumber t₀
          (d / min sp MIXER_MAX_SPEED * 3600) (max 0 ((now - t₀) / 1000))
          (tripProgressRatio t₀ d sp now) d (min sp MIXER_MAX_SPEED) now)
      deliveryLog := s.deliveryLog
      nextTruckNumber := s.nextTruckNumber + 1
      nextDispatchTime := s.nextDispatchTime
      isRunning := s.isRunning
      tripToTruckId := alSet s.tripToTruckId trip.id ("TRIP-" ++ trip.id) } := by
  unfold addTruckFromTrip
  rw [hcfg]
  dsimp only
  rw [hbase]
  dsimp only
  rw [hstart]
  dsimp only
  rw [hmap]
  dsimp only
  rw [if_neg (fun h => absurd ((newTripTruck_status_arrived_iff ..).mp h)
    (not_le.mpr hlt))]

/-- With a config, a usable base path of positive length and an in-progress
trip, hydrating a single trip is exactly one `addTruckFromTrip` call. -/
theorem hydrateFromTrips_single (env : Env) (trip : DbTrip) (sp now : ℚ)
    (s : DeliveryState) (cfg : DeliveryConfig) (base : GeomInfo)
    (hcfg : s.config = some cfg) (hbase : basePath cfg = some base)
    (hdist : 0 < env.calcDist base.coordinates)
    (hip : trip.status = TripStatus.inProgress) :
    hydrateFromTrips env [trip] sp now s =
      (addTruckFromTrip env trip (env.calcDist base.coordinates) sp now s).2 := by
  unfold hydrateFromTrips
  dsimp only
  rw [ensureConfigForDb_of_some now hcfg, hcfg]
  dsimp only
  rw [hbase]
  dsimp only
  rw [if_neg (not_le.mpr hdist)]
  simp only [List.foldl_cons, List.foldl_nil, if_pos hip]

/-- **C5.** `hydrateFromTrips` called twice with the same in-progress trip
(no change in elapsed time) creates no second truck for that trip id: the
first call creates and maps the `TRIP-<id>` truck, the second call leaves
the truck-map keys and the trip mapping unchanged and updates the existing
truck in place (progress ratio taken as the max of existing and derived
values, position refreshed through interpolation); and if the trip id is
mapped but its truck is no longer in the active map, the call skips it and
does not recreate a truck. -/
theorem c5_hydrate_no_duplicate :
    (∀ (env : Env) (s : DeliveryState) (trip : DbTrip) (sp now t₀ : ℚ)
      (cfg : DeliveryConfig) (base : GeomInfo),
      trip.status = TripStatus.inProgress →
      trip.actual_start_at = some t₀ →
      s.config = some cfg →
      basePath cfg = some base →
      0 < env.calcDist base.coordinates →
      alGet s.tripToTruckId trip.id = none →
      tripProgressRatio t₀ (env.calcDist base.coordinates) sp now < 1 →
      alGet (hydrateFromTrips env [trip] sp now s).tripToTruckId trip.id =
        some ("TRIP-" ++ trip.id) ∧
      (∃ t₁, alGet (hydrateFromTrips env [trip] sp now s).activeTrucks
        ("TRIP-" ++ trip.id) = some t₁) ∧
      keys (hydrateFromTrips env [trip] sp now
          (hydrateFromTrips env [trip] sp now s)).activeTrucks =
        keys (hydrateFromTrips env [trip] sp now s).activeTrucks ∧
      (hydrateFromTrips env [trip] sp now
          (hydrateFromTrips env [trip] sp now s)).tripToTruckId =
        (hydrateFromTrips env [trip] sp now s).tripToTruckId ∧
      (∀ t₁, alGet (hydrateFromTrips env [trip] sp now s).activeTrucks
          ("TRIP-" ++ trip.id) = some t₁ →
        alGet (hydrateFromTrips env [trip] sp now
            (hydrateFromTrips env [trip] sp now s)).activeTrucks
            ("TRIP-" ++ trip.id) =
          some (hydratedTruckUpdate env base
            (tripProgressRatio t₀ (env.calcDist base.coordinates) sp now) t₁))) ∧
    (∀ (env : Env) (s : DeliveryState) (trip : DbTrip) (sp now : ℚ) (tid : String),
      trip.status = TripStatus.inProgress →
      alGet s.tripToTruckId trip.id = some tid →
      alGet s.activeTrucks tid = none →
      (hydrateFromTrips env [trip] sp now s).activeTrucks = s.activeTrucks ∧
      (hydrateFromTrips env [trip] sp now s).tripToTruckId = s.tripToTruckId) := by
  constructor
  · intro env s trip sp now t₀ cfg base hip hstart hcfg hbase hdist hmap hlt
    have hs₁ : hydrateFromTrips env [trip] sp now s = {
        config := some cfg
        activeTrucks := alSet s.activeTrucks ("TRIP-" ++ trip.id)
          (newTripTruck env cfg base trip s.nextTruckNumber t₀
            (env.calcDist base.coordinates / min sp MIXER_MAX_SPEED * 3600)
            (max 0 ((now - t₀) / 1000))
            (tripProgressRatio t₀ (env.calcDist base.coordinates) sp now)
            (env.calcDist base.coordinates) (min sp MIXER_MAX_SPEED) now)
        deliveryLog := s.deliveryLog
        nextTruckNumber := s.nextTruckNumber + 1
        nextDispatchTime := s.nextDispatchTime
        isRunning := s.isRunning
        tripToTruckId := alSet s.tripToTruckId trip.id ("TRIP-" ++ trip.id) } :=
      (hydrateFromTrips_single env trip sp now s cfg base hcfg hbase hdist hip).trans
        (addTruckFromTrip_create_shape env trip (env.calcDist base.coordinates)
          sp now s cfg base t₀ hcfg hbase hstart hmap hlt)
    have hcfg₁ : (hydrateFromTrips env [trip] sp now s).config = some cfg := by
      rw [hs₁]
    have hmap₁ : alGet (hydrateFromTrips env [trip] sp now s).tripToTruckId
        trip.id = some ("TRIP-" ++ trip.id) := by
      rw [hs₁]
      exact alGet_alSet_self ..
    have hget₁ : alGet (hydrateFromTrips env [trip] sp now s).activeTrucks
        ("TRIP-" ++ trip.id) = some (newTripTruck env cfg base trip
          s.nextTruckNumber t₀
          (env.calcDist base.coordinates / min sp MIXER_MAX_SPEED * 3600)
          (max 0 ((now - t₀) / 1000))
          (tripProgressRatio t₀ (env.calcDist base.coordinates) sp now)
          (env.calcDist base.coordinates) (min sp MIXER_MAX_SPEED) now) := by
      rw [hs₁]
      exact alGet_alSet_self ..
    have hs₂ : hydrateFromTrips env [trip] sp now
        (hydrateFromTrips env [trip] sp now s) = {
        config := some cfg
        activeTrucks := alSet (hydrateFromTrips env [trip] sp now s).activeTrucks
          ("TRIP-" ++ trip.id)
          (hydratedTruckUpdate env base
            (tripProgressRatio t₀ (env.calcDist base.coordinates) sp now)
            (newTripTruck env cfg base trip s.nextTruckNumber t₀
              (env.calcDist base.coordinates / min sp MIXER_MAX_SPEED * 3600)
              (max 0 ((now - t₀) / 1000))
              (tripProgressRatio t₀ (env.calcDist base.coordinates) sp now)
              (env.calcDist base.coordinates) (min sp MIXER_MAX_SPEED) now))
        deliveryLog := (hydrateFromTrips env [trip] sp now s).deliveryLog
        nextTruckNumber := (hydrateFromTrips env [trip] sp now s).nextTruckNumber
        nextDispatchTime := (hydrateFromTrips env [trip] sp now s).nextDispatchTime
        isRunning := (hydrateFromTrips env [trip] sp now s).isRunning
        tripToTruckId := (hydrateFromTrips env [trip] sp now s).tripToTruckId } :=
      (hydrateFromTrips_single env trip sp now _ cfg base hcfg₁ hbase hdist hip).trans
        (addTruckFromTrip_update_shape env trip (env.calcDist base.coordinates)
          sp now _ cfg base t₀ ("TRIP-" ++ trip.id) _ hcfg₁ hbase hstart hmap₁ hget₁)
    refine ⟨hmap₁, ⟨_, hget₁⟩, ?_, ?_, ?_⟩
    · rw [hs₂]
      exact keys_alSet_of_mem _ _ _ (mem_keys_of_alGet_eq_some hget₁)
    · rw [hs₂]
    · intro t₁ ht₁
      rw [hget₁] at ht₁
      rw [← Option.some.inj ht₁, hs₂]
      exact alGet_alSet_self ..
  · intro env s trip sp now tid hip hmap hget
    rcases hc : s.config with _ | cfg
    · have hens : ensureConfigForDb now s =
          { s with config := some (dbDummyConfig now), isRunning := true } := by
        unfold ensureConfigForDb
        rw [hc]
      unfold hydrateFromTrips
      dsimp only
      rw [hens]
      dsimp only
      have hbase : basePath (dbDummyConfig now) =
          some { coordinates := [], segmentCount := 0 } := rfl
      rw [hbase]
      dsimp only
      by_cases hd : env.calcDist
          ({ coordinates := [], segmentCount := 0 } : GeomInfo).coordinates ≤ 0
      · rw [if_pos hd]
        exact ⟨rfl, rfl⟩
      · rw [if_neg hd]
        simp only [List.foldl_cons, List.foldl_nil, if_pos hip]
        rw [addTruckFromTrip_skip env trip (env.calcDist [])  sp now
          { config := some (dbDummyConfig now), activeTrucks := s.activeTrucks
            deliveryLog := s.deliveryLog, nextTruckNumber := s.nextTruckNumber
            nextDispatchTime := s.nextDispatchTime, isRunning := true
            tripToTruckId := s.tripToTruckId } tid hmap hget]
        exact ⟨rfl, rfl⟩
    · have hens := ensureConfigForDb_of_some now hc
      unfold hydrateFromTrips
      dsimp only
      rw [hens, hc]
      dsimp only
      rcases hbase : basePath cfg with _ | base
      · exact ⟨rfl, rfl⟩
      · dsimp only
        by_cases hd : env.calcDist base.coordinates ≤ 0
        · rw [if_pos hd]
          exact ⟨rfl, rfl⟩
        · rw [if_neg hd]
          simp only [List.foldl_cons, List.foldl_nil, if_pos hip]
          rw [addTruckFromTrip_skip env trip (env.calcDist base.coordinates)
            sp now s tid hmap hget]
          exact ⟨rfl, rfl⟩

/-- Witness config with a usable `GAMMON_TM` geometry. -/
def wCfgGeom : DeliveryConfig where
  routeId := 0
  targetVolume := 8
  volumePerTruck := 8
  trucksPerHour := 1
  startTime := 0
  defaultSpeed := 40
  pathGeometries := fun p =>
    match p with
    | PathId.GAMMON_TM =>
        some { coordinates := [((0 : ℚ), (0 : ℚ)), (1, 0)], segmentCount := 1 }
    | PathId.HKC_TY => none
    | PathId.FUTURE_PATH => none

/-- The base geometry of `wCfgGeom`. -/
def wBase : GeomInfo where
  coordinates := [((0 : ℚ), (0 : ℚ)), (1, 0)]
  segmentCount := 1

/-- Fresh session state with no trucks and no trip mappings. -/
def wStateFresh : DeliveryState where
  config := some wCfgGeom
  activeTrucks := []
  deliveryLog := []
  nextTruckNumber := 1
  nextDispatchTime := none
  isRunning := true
  tripToTruckId := []

/-- State whose trip mapping survives but whose truck is gone. -/
def wStateGone : DeliveryState where
  config := some wCfgGeom
  activeTrucks := []
  deliveryLog := []
  nextTruckNumber := 2
  nextDispatchTime := none
  isRunning := true
  tripToTruckId := [("a", "TRIP-a")]

/-- An in-progress DB trip that started at time 0. -/
def wTrip : DbTrip where
  id := "b"
  vehicle_id := "v1"
  actual_start_at := some 0
  actual_arrival_at := none
  status := TripStatus.inProgress
  corrected := none

/-- An in-progress DB trip whose id is mapped in `wStateGone`. -/
def wTripA : DbTrip where
  id := "a"
  vehicle_id := "v0"
  actual_start_at := some 0
  actual_arrival_at := none
  status := TripStatus.inProgress
  corrected := none

/-- Witness for C5: hydrating the same fresh in-progress trip twice tracks
one truck, does not duplicate it, and updates it in place; hydrating a
mapped trip whose truck is gone changes nothing. -/
theorem c5_witness :
    (alGet (hydrateFromTrips wEnv [wTrip] 40 0 wStateFresh).tripToTruckId
        wTrip.id = some ("TRIP-" ++ wTrip.id) ∧
      (∃ t₁, alGet (hydrateFromTrips wEnv [wTrip] 40 0 wStateFresh).activeTrucks
        ("TRIP-" ++ wTrip.id) = some t₁) ∧
      keys (hydrateFromTrips wEnv [wTrip] 40 0
          (hydrateFromTrips wEnv [wTrip] 40 0 wStateFresh)).activeTrucks =
        keys (hydrateFromTrips wEnv [wTrip] 40 0 wStateFresh).activeTrucks ∧
      (hydrateFromTrips wEnv [wTrip] 40 0
          (hydrateFromTrips wEnv [wTrip] 40 0 wStateFresh)).tripToTruckId =
        (hydrateFromTrips wEnv [wTrip] 40 0 wStateFresh).tripToTruckId ∧
      (∀ t₁, alGet (hydrateFromTrips wEnv [wTrip] 40 0 wStateFresh).activeTrucks
          ("TRIP-" ++ wTrip.id) = some t₁ →
        alGet (hydrateFromTrips wEnv [wTrip] 40 0
            (hydrateFromTrips wEnv [wTrip] 40 0 wStateFresh)).activeTrucks
            ("TRIP-" ++ wTrip.id) =
          some (hydratedTruckUpdate wEnv wBase
            (tripProgressRatio 0 (wEnv.calcDist wBase.coordinates) 40 0) t₁))) ∧
    ((hydrateFromTrips wEnv [wTripA] 40 0 wStateGone).activeTrucks =
        wStateGone.activeTrucks ∧
      (hydrateFromTrips wEnv [wTripA] 40 0 wStateGone).tripToTruckId =
        wStateGone.tripToTruckId) :=
  ⟨c5_hydrate_no_duplicate.1 wEnv wStateFresh wTrip 40 0 0 wCfgGeom wBase
      rfl rfl rfl rfl (by decide) rfl
      (by simp [tripProgressRatio, wEnv]),
   c5_hydrate_no_duplicate.2 wEnv wStateGone wTripA 40 0 "TRIP-a"
      rfl (by decide) (by decide)⟩

/-! ## Session start (claim C6) -/

/-- Session config for the C6 scenario: `totalTrucksNeeded = ⌈8/8⌉ = 1`. -/
def wSessionCfg : SessionConfig where
  routeId := 0
  targetVolume := 8
  volumePerTruck := 8
  trucksPerHour := 1
  startTime := 0
  defaultSpeed := 40

/-- **C6 (counterexample).** The claim says `startDeliverySession`
immediately attempts one dispatch so that, with a usable path geometry and
`totalTrucksNeeded ≥ 1`, the active map contains one en-route truck on
return. With a usable `GAMMON_TM` geometry and `totalTrucksNeeded = 1`, the
active-truck map is empty on return: the dispatch is gated by
`AUTO_DISPATCH_ENABLED = false`. -/
theorem c6_counterexample :
    (1 : Int) ≤ ⌈wSessionCfg.targetVolume / wSessionCfg.volumePerTruck⌉ ∧
    wCfgGeom.pathGeometries PathId.GAMMON_TM = some wBase ∧
    wBase.coordinates ≠ [] ∧
    (startDeliverySession wEnv wSessionCfg wCfgGeom.pathGeometries 0
      wState1).2.activeTrucks = [] := by
  refine ⟨?_, rfl, by decide, ?_⟩
  · have h : wSessionCfg.targetVolume / wSessionCfg.volumePerTruck = (1 : ℚ) := by
      norm_num [wSessionCfg]
    rw [h, Int.ceil_one]
  · simp [startDeliverySession, AUTO_DISPATCH_ENABLED]

/-- **C6 (amended).** `startDeliverySession`, after clearing the truck map
and the log and storing the config, sets the next-dispatch timestamp to the
configured start time; it dispatches only when `AUTO_DISPATCH_ENABLED`, and
that flag is false in this revision, so the active-truck map is empty when
the call returns. -/
theorem c6_startDeliverySession_amended (env : Env) (sc : SessionConfig)
    (geoms : PathId → Option GeomInfo) (now : ℚ) (s : DeliveryState) :
    (startDeliverySession env sc geoms now s).2.nextDispatchTime =
      some sc.startTime ∧
    (startDeliverySession env sc geoms now s).2.config = some {
      routeId := sc.routeId
      targetVolume := sc.targetVolume
      volumePerTruck := sc.volumePerTruck
      trucksPerHour := sc.trucksPerHour
      startTime := sc.startTime
      defaultSpeed := sc.defaultSpeed
      pathGeometries := geoms } ∧
    (startDeliverySession env sc geoms now s).2.activeTrucks = [] ∧
    (startDeliverySession env sc geoms now s).2.deliveryLog = [] ∧
    (startDeliverySession env sc geoms now s).2.nextTruckNumber = 1 ∧
    (startDeliverySession env sc geoms now s).2.isRunning = true ∧
    AUTO_DISPATCH_ENABLED = false :=
  ⟨rfl, rfl, rfl, rfl, rfl, rfl, rfl⟩

/-! ## The tick example (claim C7) -/

/-- State for the C7 scenario: usable geometry, default speed 40 (with an
empty project-path list, `getPathAverageSpeed` returns the capped default
40), and a fresh en-route truck with 10 km total distance. -/
def wState7 : DeliveryState where
  config := some wCfgGeom
  activeTrucks := [("TRIP-a", wTruckEnRoute)]
  deliveryLog := []
  nextTruckNumber := 2
  nextDispatchTime := none
  isRunning := true
  tripToTruckId := [("a", "TRIP-a")]

/-- **C7 (counterexample).** The claim says a single `tickDelivery` with
`dtSeconds = 3600` on a fresh truck (10 km route, live capped speed
40 km/h) yields `progressRatio = min(1, 4/10) = 0.4`. The code yields
progress 1: at 40 km/h for 3600 s the distance covered is 40 km, so
`min(40/10, 1) = 1 ≠ 0.4`. -/
theorem c7_counterexample :
    (tickDelivery wEnv 3600 0 wState7).activeTrucks.map
      (fun p => p.2.progressRatio) = [1] ∧ ¬ ((1 : ℚ) = 2 / 5) := by
  constructor
  · simp [tickDelivery, tickTruck, tickedTruck, completeTruck,
      getPathAverageSpeed, speedFoldStep, wEnv, wState7, wCfgGeom, wTruckEnRoute,
      alGet, alSet, keys, AUTO_DISPATCH_ENABLED, MIXER_MAX_SPEED, sumVol,
      min_def, max_def]
    norm_num
  · norm_num

/-- **C7 (amended).** For that same input the single tick yields
`progressRatio = min((40 × 3600/3600)/10, 1) = 1`, upon which the truck
completes (status arrived). A `dtSeconds` of 360 — not 3600 — would have
produced 0.4. -/
theorem c7_tick_amended :
    (tickDelivery wEnv 3600 0 wState7).activeTrucks.map
      (fun p => (p.2.progressRatio, p.2.status)) =
      [((1 : ℚ), TruckStatus.arrived)] ∧
    (1 : ℚ) = min (40 * 3600 / 3600 / 10) 1 ∧
    max wTruckEnRoute.progressRatio (min (40 * 360 / 3600 / 10) 1) = 2 / 5 := by
  refine ⟨?_, by norm_num, ?_⟩
  · simp [tickDelivery, tickTruck, tickedTruck, completeTruck,
      getPathAverageSpeed, speedFoldStep, wEnv, wState7, wCfgGeom, wTruckEnRoute,
      alGet, alSet, keys, AUTO_DISPATCH_ENABLED, MIXER_MAX_SPEED, sumVol,
      min_def, max_def]
    norm_num
  · show max (0 : ℚ) (min (40 * 360 / 3600 / 10) 1) = 2 / 5
    norm_num [min_def, max_def]

/-! ## Throughput behind-schedule flag (claim C9) -/

/-- **C9 (counterexample).** The claim says `behindSchedule` is true exactly
when elapsed hours × trucksPerHour exceeds the completed-delivery count. At
30 minutes into a session with rate 1 truck/hour and an empty log, the
pro-rated product is 1/2 > 0 actual completions, yet the code reports
`behindSchedule = false` because it floors the product first
(`Math.floor(0.5) = 0`). -/
theorem c9_counterexample :
    (getThroughputAnalysis wEnv 1800000 wStateFresh).behindSchedule = false ∧
    ((1800000 : ℚ) - wCfgGeom.startTime) / 3600000 * wCfgGeom.trucksPerHour >
      (wStateFresh.deliveryLog.length : ℚ) := by
  constructor
  · have h2 : ⌊((1800000 : ℚ) - 0) / 3600000 * 1⌋ = 0 := by
      rw [show ((1800000 : ℚ) - 0) / 3600000 * 1 = 1 / 2 by norm_num,
        Int.floor_eq_zero_iff]
      constructor <;> norm_num
    simp only [getThroughputAnalysis, wStateFresh, wCfgGeom, List.length_nil, h2]
    decide
  · norm_num [wCfgGeom, wStateFresh]

/-- **C9 (amended).** `behindSchedule` is true exactly when the floored
pro-rated expectation `Math.floor(elapsedHours × trucksPerHour)` exceeds the
number of completed deliveries in the log. -/
theorem c9_behindSchedule_amended (env : Env) (now : ℚ) (s : DeliveryState)
    (cfg : DeliveryConfig) (hcfg : s.config = some cfg) :
    (getThroughputAnalysis env now s).behindSchedule = true ↔
      (s.deliveryLog.length : Int) <
        ⌊(now - cfg.startTime) / 3600000 * cfg.trucksPerHour⌋ := by
  unfold getThroughputAnalysis
  rw [hcfg]
  dsimp only
  simp only [decide_eq_true_eq]
  omega

/-- Witness for the amended C9 at a concrete evaluation point. -/
theorem c9_witness :
    (getThroughputAnalysis wEnv 1800000 wStateFresh).behindSchedule = true ↔
      (wStateFresh.deliveryLog.length : Int) <
        ⌊((1800000 : ℚ) - wCfgGeom.startTime) / 3600000 * wCfgGeom.trucksPerHour⌋ :=
  c9_behindSchedule_amended wEnv 1800000 wStateFresh wCfgGeom rfl

end TruckService
